import Mathlib

/-!
# Verification of the lampatv-proxy core against its specification

Shallow embedding of the Python sources of the `lampatv-proxy` repository
(an HTTP reverse proxy for media streaming) into Lean 4, together with
proofs and refutations of the frozen specification claims.

Conventions used throughout this development:
* Python `str` values that require character-level processing are modelled
  as `List Char` (`PyStr`); elsewhere Lean `String` is used.
* Python `int` is modelled as `Int` (`Nat` where the source can only
  produce non-negative values).
* Python `dict` is modelled as an association list with insert-or-update
  semantics preserving first-insertion order, matching CPython dicts.
* Fallible code returns `Option`/`Except`; `async` I/O boundaries are
  modelled by passing the transport outcome (response or error kind) as an
  explicit argument.
-/

namespace LampaProxy

/-! ## Proxy pool (src/services/proxy_manager.py)

State of `ProxyManager`: the `_working_proxies` list and the
`_proxy_stats` dict mapping an endpoint to its `success`/`failures`
counters. -/

/-- One stats record of `ProxyManager._proxy_stats`. -/
structure ProxyStats where
  success : Nat
  failures : Nat
  deriving DecidableEq, Repr

/-- The mutable state of `ProxyManager`. -/
structure ProxyManagerState where
  workingProxies : List String
  proxyStats : List (String × ProxyStats)
  deriving DecidableEq, Repr

/-- Lookup in an association list modelling a Python dict (`d[k]` /
`k in d`). -/
def dictGet (k : String) : List (String × ProxyStats) → Option ProxyStats
  | [] => none
  | (k', v) :: rest => if k' = k then some v else dictGet k rest

/-- Update an existing key in place, as `d[k] = v` does for a present key. -/
def dictSet (k : String) (v : ProxyStats) : List (String × ProxyStats) →
    List (String × ProxyStats)
  | [] => [(k, v)]
  | (k', v') :: rest =>
    if k' = k then (k, v) :: rest else (k', v') :: dictSet k v rest

/-- Delete a key, as `del d[k]` does (`ProxyManager.remove_proxy`). -/
def dictDel (k : String) : List (String × ProxyStats) →
    List (String × ProxyStats)
  | [] => []
  | (k', v') :: rest =>
    if k' = k then rest else (k', v') :: dictDel k rest

/-- `ProxyManager.add_proxy`: appends the endpoint when absent and
initialises its stats to zero; otherwise leaves the state unchanged. -/
def addProxy (proxy : String) (st : ProxyManagerState) : ProxyManagerState :=
  if proxy = "" then st
  else if proxy ∈ st.workingProxies then st
  else
    { workingProxies := st.workingProxies ++ [proxy],
      proxyStats := st.proxyStats ++ [(proxy, ⟨0, 0⟩)] }

/-- `ProxyManager.remove_proxy`: removes the endpoint from
`_working_proxies` and, if it was there, also deletes its stats record. -/
def removeProxy (proxy : String) (st : ProxyManagerState) : ProxyManagerState :=
  if proxy ∈ st.workingProxies then
    { workingProxies := st.workingProxies.erase proxy,
      proxyStats := dictDel proxy st.proxyStats }
  else st

/-- `ProxyManager.mark_proxy_success`: increments `success` when the
endpoint is non-empty (Python truthiness of `proxy`) and present in the
stats dict; otherwise a no-op. -/
def markProxySuccess (proxy : String) (st : ProxyManagerState) :
    ProxyManagerState :=
  if proxy ≠ "" then
    match dictGet proxy st.proxyStats with
    | some s =>
      { st with proxyStats :=
          dictSet proxy ⟨s.success + 1, s.failures⟩ st.proxyStats }
    | none => st
  else st

/-- `ProxyManager.mark_proxy_failure`: returns unchanged for an empty
endpoint; otherwise, when present in the stats dict, increments
`failures` and, when the new count exceeds 5, removes the entry via
`remove_proxy`. -/
def markProxyFailure (proxy : String) (st : ProxyManagerState) :
    ProxyManagerState :=
  if proxy = "" then st
  else
    match dictGet proxy st.proxyStats with
    | some s =>
      let st' : ProxyManagerState :=
        { st with proxyStats :=
            dictSet proxy ⟨s.success, s.failures + 1⟩ st.proxyStats }
      if s.failures + 1 > 5 then removeProxy proxy st' else st'
    | none => st


/-! ## Range parsing and response framing (src/services/video_streamer.py)

Python `str` values needing character-level work are `List Char`; Python
`int` is `Int` (digit groups produce non-negative values, kept as casts
from `Nat`). -/

/-- `int(...)` applied to a regex digit group: base-10 value of a digit
string. -/
def digitsToNat (ds : List Char) : Nat :=
  ds.foldl (fun a c => a * 10 + (c.toNat - '0'.toNat)) 0

/-- The regex match `re.match(r'bytes=(\d+)-(\d*)', s)` of
`VideoStreamer._parse_range_header`: anchored at the start only, trailing
characters ignored; returns the two digit groups (the second possibly
empty). `\d` is modelled as the ASCII digits. -/
def matchBytesRange : List Char → Option (List Char × List Char)
  | 'b' :: 'y' :: 't' :: 'e' :: 's' :: '=' :: rest =>
    let d1 := rest.takeWhile Char.isDigit
    if d1.isEmpty then none
    else
      match rest.drop d1.length with
      | '-' :: rest2 => some (d1, rest2.takeWhile Char.isDigit)
      | _ => none
  | _ => none

/-- The validation block of `_parse_range_header` (guarded by
`if file_size > 0:` in the source): clamp `start` into the file, collapse
a start past the file end, clamp `end`, and swap when `start > end`. -/
def validateRange (fileSize s0 e0 : Int) : Int × Int :=
  if 0 < fileSize then
    let s1 := if s0 < 0 then 0 else s0
    let s2 := if s1 ≥ fileSize then fileSize - 1 else s1
    let e1 := if s1 ≥ fileSize then fileSize - 1 else e0
    let e2 := if e1 ≥ fileSize then fileSize - 1 else e1
    let s3 := if s2 > e2 then e2 else s2
    let e3 := if s2 > e2 then s2 else e2
    (s3, e3)
  else (s0, e0)

/-- The `max_range_size` cap of `_parse_range_header`
(`if file_size > 0 and (end - start) > self.config.max_range_size:`).
Note the strict `>` on `end - start`, not on the span `end - start + 1`. -/
def capRange (maxRangeSize fileSize s e : Int) : Int × Int :=
  if 0 < fileSize ∧ e - s > maxRangeSize then
    let e4 := s + maxRangeSize - 1
    (s, if e4 ≥ fileSize then fileSize - 1 else e4)
  else (s, e)

/-- `VideoStreamer._parse_range_header(range_header, file_size)` with the
instance's `config.max_range_size` passed explicitly.  `None` and the
empty string are both falsy for `if not range_header`. -/
def parseRangeHeader (maxRangeSize : Int) (rangeHeader : Option String)
    (fileSize : Int) : Int × Int :=
  let defaultPair : Int × Int := (0, if 0 < fileSize then fileSize - 1 else 0)
  match rangeHeader with
  | none => defaultPair
  | some h =>
    if h = "" then defaultPair
    else
      match matchBytesRange h.toList with
      | none => defaultPair
      | some (d1, d2) =>
        let s0 : Int := (digitsToNat d1 : Nat)
        let e0 : Int :=
          if d2.isEmpty then (if 0 < fileSize then fileSize - 1 else 0)
          else (digitsToNat d2 : Nat)
        let p := validateRange fileSize s0 e0
        capRange maxRangeSize fileSize p.1 p.2

/-- `parse_range_header` of src/utils/url_utils.py: identical to the
streamer's parser except that the regex is case-insensitive and there is
no `max_range_size` cap at all. -/
def parseRangeHeaderUrlUtils (rangeHeader : Option String) (fileSize : Int) :
    Int × Int :=
  let defaultPair : Int × Int := (0, if 0 < fileSize then fileSize - 1 else 0)
  match rangeHeader with
  | none => defaultPair
  | some h =>
    if h = "" then defaultPair
    else
      match matchBytesRange (h.toList.map Char.toLower) with
      | none => defaultPair
      | some (d1, d2) =>
        let s0 : Int := (digitsToNat d1 : Nat)
        let e0 : Int :=
          if d2.isEmpty then (if 0 < fileSize then fileSize - 1 else 0)
          else (digitsToNat d2 : Nat)
        validateRange fileSize s0 e0

/-- Assoc-list lookup used for response-header dicts (all keys distinct in
the dicts the streamer builds). -/
def headerGet (k : String) : List (String × String) → Option String
  | [] => none
  | (k', v) :: rest => if k' = k then some v else headerGet k rest

/-- `VideoStreamer._prepare_response_headers`. -/
def prepareResponseHeaders (contentType : String) (rangeRequested : Bool)
    (startByte endByte fileSize : Int) : List (String × String) :=
  let base : List (String × String) :=
    [("Accept-Ranges", "bytes"),
     ("Cache-Control", "no-cache, no-store, must-revalidate"),
     ("Access-Control-Allow-Origin", "*"),
     ("Access-Control-Allow-Headers", "*"),
     ("Access-Control-Expose-Headers",
       "Content-Length, Content-Range, Accept-Ranges"),
     ("Content-Type", contentType),
     ("X-Content-Type-Options", "nosniff")]
  if rangeRequested ∧ 0 < fileSize then
    base ++
      [("Content-Range",
         "bytes " ++ toString startByte ++ "-" ++ toString endByte ++ "/" ++
           toString fileSize),
       ("Content-Length", toString (endByte - startByte + 1))]
  else if ¬ rangeRequested ∧ 0 < fileSize then
    base ++ [("Content-Length", toString fileSize)]
  else base

/-- The pure response-framing slice of `VideoStreamer.stream_video`
(lines 51-77): parse the client range, decide range mode, choose the
outbound `Range` header, the status code and the response headers.  The
probe result is abstracted to its `file_size` and `content_type`. -/
structure StreamFraming where
  startByte : Int
  endByte : Int
  rangeRequested : Bool
  outboundRange : Option String
  statusCode : Nat
  responseHeaders : List (String × String)
  deriving Repr, DecidableEq

/-- Framing computation of `VideoStreamer.stream_video`. -/
def streamVideoFraming (maxRangeSize fileSize : Int) (contentType : String)
    (rangeHeader : Option String) : StreamFraming :=
  let p := parseRangeHeader maxRangeSize rangeHeader fileSize
  let startByte := p.1
  let endByte := p.2
  let headerTruthy : Bool :=
    match rangeHeader with
    | none => false
    | some h => h ≠ ""
  let rangeRequested : Bool :=
    headerTruthy || decide (0 < startByte) ||
      (decide (0 < fileSize) && decide (endByte < fileSize - 1))
  let outboundRange : Option String :=
    if rangeRequested then
      some (if 0 < fileSize then
        "bytes=" ++ toString startByte ++ "-" ++ toString endByte
      else "bytes=" ++ toString startByte ++ "-")
    else none
  { startByte := startByte, endByte := endByte,
    rangeRequested := rangeRequested, outboundRange := outboundRange,
    statusCode := if rangeRequested then 206 else 200,
    responseHeaders :=
      prepareResponseHeaders contentType rangeRequested startByte endByte
        fileSize }


/-! ## Content prober (src/services/content_info_getter.py) and
classifier (src/services/processors/content_processor.py)

The `httpx` response seen by the prober is abstracted to its status code,
its headers (as the lowercase-keyed dict view `httpx` exposes) and its
URL; a raised transport exception is the `Except.error` case. -/

/-- The data of an upstream `httpx` response that the embedded code
consumes: status, the lowercase-keyed header view, the response URL and
the decoded body text. -/
structure PyResponse where
  statusCode : Nat
  headers : List (String × String)
  url : String
  bodyText : String
  deriving DecidableEq, Repr

/-- Python `int(s)` on a header string: optional surrounding whitespace,
optional sign, decimal digits (digit-group underscores are not
modelled). -/
def pyInt (s : String) : Option Int :=
  let l := ((s.toList.dropWhile Char.isWhitespace).reverse.dropWhile
    Char.isWhitespace).reverse
  match l with
  | [] => none
  | '+' :: ds =>
    if ds ≠ [] ∧ ds.all Char.isDigit then some (digitsToNat ds : Nat)
    else none
  | '-' :: ds =>
    if ds ≠ [] ∧ ds.all Char.isDigit then some (-(digitsToNat ds : Nat) : Int)
    else none
  | ds => if ds.all Char.isDigit then some (digitsToNat ds : Nat) else none

/-- `ContentInfoResponse` of src/models/responses.py. -/
structure ContentInfo where
  statusCode : Nat
  contentType : String
  contentLength : Int
  acceptRanges : String
  headers : List (String × String)
  methodUsed : String
  error : Option String
  deriving DecidableEq, Repr

/-- `ContentInfoGetter._try_head_request`: builds the probe result from
the HEAD response; `accept_ranges` defaults to `"bytes"` when the origin
sent no `Accept-Ranges` header; a raised exception yields the zeroed
result with `method_used='HEAD'` and the error string. -/
def tryHeadRequest (outcome : Except String PyResponse) : ContentInfo :=
  match outcome with
  | .error e => ⟨0, "", 0, "bytes", [], "HEAD", some e⟩
  | .ok r =>
    let contentLength : Int :=
      match headerGet "content-length" r.headers with
      | some v => if v ≠ "" then (pyInt v).getD 0 else 0
      | none => 0
    { statusCode := r.statusCode,
      contentType := (headerGet "content-type" r.headers).getD "",
      contentLength := contentLength,
      acceptRanges := (headerGet "accept-ranges" r.headers).getD "bytes",
      headers := r.headers,
      methodUsed := "HEAD",
      error := none }

/-- The regex `bytes\s+\*?/?(\d+)-?(\d+)?/(\d+)` of
`ContentInfoGetter._try_get_requests` applied to a `Content-Range` value;
returns group 3 (the total size).  The linear scan agrees with the
backtracking regex on these patterns because digit runs and the literal
delimiters are disjoint character classes. -/
def matchContentRange (l : List Char) : Option Nat :=
  match l with
  | 'b' :: 'y' :: 't' :: 'e' :: 's' :: rest =>
    let sp := rest.takeWhile Char.isWhitespace
    if sp.isEmpty then none
    else
      let r1 := rest.drop sp.length
      let r2 := if r1.head? = some '*' then r1.tail else r1
      let r3 := if r2.head? = some '/' then r2.tail else r2
      let d1 := r3.takeWhile Char.isDigit
      if d1.isEmpty then none
      else
        let r4 := r3.drop d1.length
        let r5 := if r4.head? = some '-' then r4.tail else r4
        let d2 := r5.takeWhile Char.isDigit
        match r5.drop d2.length with
        | '/' :: r7 =>
          let d3 := r7.takeWhile Char.isDigit
          if d3.isEmpty then none else some (digitsToNat d3)
        | _ => none
  | _ => none

/-- `ContentInfoGetter._try_get_requests`: walk the three GET strategies
(`Range 0-0`, `Range 0-999`, plain) in order; a strategy that raises is
skipped, the first one that yields a response is returned — whatever its
status.  The total size comes from `Content-Range` on a 206, else from
`Content-Length` on a 200, else stays 0.  Each element of `outcomes`
pairs the strategy description with its transport outcome. -/
def tryGetRequests (outcomes : List (String × Except String PyResponse)) :
    ContentInfo :=
  match outcomes with
  | [] => ⟨0, "", 0, "bytes", [], "GET_ALL_FAILED",
      some "All GET strategies failed"⟩
  | (_, .error _) :: rest => tryGetRequests rest
  | (descr, .ok r) :: _ =>
    let contentLength : Int :=
      if r.statusCode = 206 ∧ (headerGet "content-range" r.headers).isSome then
        match matchContentRange
            (((headerGet "content-range" r.headers).getD "").toList) with
        | some t => (t : Nat)
        | none => 0
      else if r.statusCode = 200 ∧
          ((headerGet "content-length" r.headers).getD "") ≠ "" then
        (pyInt ((headerGet "content-length" r.headers).getD "")).getD 0
      else 0
    { statusCode := r.statusCode,
      contentType := (headerGet "content-type" r.headers).getD "",
      contentLength := contentLength,
      acceptRanges := (headerGet "accept-ranges" r.headers).getD "bytes",
      headers := r.headers,
      methodUsed := "GET_" ++ descr,
      error := none }

/-- `ContentInfoGetter.get_content_info`: when `use_head` is set, the
HEAD result is returned as soon as its `content_length` is positive;
otherwise (and when `use_head` is unset) the GET strategy sequence
decides. -/
def getContentInfo (useHead : Bool) (headOutcome : Except String PyResponse)
    (getOutcomes : List (String × Except String PyResponse)) : ContentInfo :=
  if useHead then
    let headInfo := tryHeadRequest headOutcome
    if headInfo.contentLength > 0 then headInfo
    else tryGetRequests getOutcomes
  else tryGetRequests getOutcomes

/-- `config.video_indicators` (src/config/app_config.py). -/
def videoIndicators : List String :=
  ["video/", "application/x-mpegurl", "application/vnd.apple.mpegurl",
   "application/dash+xml", "application/vnd.ms-sstr+xml"]

/-- `config.video_extensions` (src/config/app_config.py). -/
def videoExtensions : List String :=
  [".mp4", ".m4v", ".mkv", ".webm", ".flv", ".avi", ".mov", ".wmv",
   ".mpeg", ".mpg", ".3gp", ".m3u8", ".ts"]

/-- `config.video_patterns` (src/config/app_config.py). -/
def videoPatterns : List String :=
  ["/video/", "/stream/", ".m3u8", ".mpd", "/hls/", "/dash/",
   "index.m3u8", "manifest.mpd", "playlist.m3u8", "hls.m3u8"]

/-- Python `str.lower()`, modelled as per-character ASCII lowering
(sufficient for the ASCII vocabularies involved). -/
def strToLower (s : String) : String := String.mk (s.toList.map Char.toLower)

/-- Python `needle in hay` on strings: contiguous substring test. -/
def strContains (hay needle : String) : Bool :=
  decide (needle.toList <:+: hay.toList)

/-- Python `hay.endswith(suffix)`. -/
def strEndsWith (hay suffix : String) : Bool :=
  suffix.toList.isSuffixOf hay.toList

/-- `urllib.parse.urlparse(url).path` for the URLs the classifier sees:
everything after the `://`-delimited scheme and the netloc, query and
fragment stripped; for a URL with no `://` the whole string minus
query/fragment is the path (path parameters after `;` are not split
off). -/
def pyUrlparsePath (url : String) : String :=
  let rec afterSchemeSep : List Char → Option (List Char)
    | [] => none
    | ':' :: '/' :: '/' :: rest => some rest
    | _ :: rest => afterSchemeSep rest
  let notPathEnd : Char → Bool := fun c => ¬ (c = '?' ∨ c = '#')
  match afterSchemeSep url.toList with
  | none => String.mk (url.toList.takeWhile notPathEnd)
  | some rest =>
    let afterNetloc :=
      rest.dropWhile (fun c => ¬ (c = '/' ∨ c = '?' ∨ c = '#'))
    String.mk (afterNetloc.takeWhile notPathEnd)

/-- `ContentProcessor._is_video_url`: extension match on the parsed path,
else substring match of the patterns against the lowercased URL. -/
def isVideoUrl (url : String) : Bool :=
  let urlLower := strToLower url
  let path := pyUrlparsePath urlLower
  (path ≠ "" && videoExtensions.any (fun ext => strEndsWith path ext)) ||
    videoPatterns.any (fun p => strContains urlLower p)

/-- `ContentProcessor._is_video_content`: URL must look like video; then
content-type indicator, or octet-stream with video URL, or the
large-file heuristic `content_length > 1000000 and accept_ranges ==
'bytes'`. -/
def isVideoContent (url : String) (info : ContentInfo) : Bool :=
  if ¬ isVideoUrl url then false
  else
    let ct := strToLower info.contentType
    if videoIndicators.any (fun ind => strContains ct ind) then true
    else if strContains ct "octet-stream" && isVideoUrl url then true
    else if info.contentLength > 1000000 && strToLower info.acceptRanges = "bytes"
      then true
    else false

/-! ## Generic request processor
(src/services/processors/request_processor.py)

The transport layer (`client.request`) is abstracted to a function from
the target URL to an outcome; the request context (method, body,
headers), which the source passes unchanged along a redirect chain, is
absorbed into that function.  The proxy endpoint the generator would
hand out is a fixed `Option String`; `mark_success`/`mark_failure` calls
are recorded as a list of events. -/

/-- A `mark_success`/`mark_failure` call on the proxy generator. -/
inductive Mark where
  | success (proxy : String)
  | failure (proxy : String)
  deriving DecidableEq, Repr

/-- Outcome of one transport attempt: a response, a
`httpx.TimeoutException`, another `httpx.RequestError`, or any other
exception. -/
inductive TransportOutcome where
  | ok (r : PyResponse)
  | timeout
  | reqError (msg : String)
  | unexpected (msg : String)

/-- `ProxyResponse` of src/models/responses.py.  In the source the
`set-cookie` entry of `headers` is overridden with the collected cookie
list; that list is the `cookie` field here, and `headers` keeps the
lowercase-keyed header pairs. -/
structure ProxyResponse where
  currentUrl : String
  cookie : List String
  headers : List (String × String)
  status : Nat
  body : String
  error : Option String
  deriving DecidableEq, Repr

/-- Result of driving the `process_request` async generator: the yielded
response together with the proxy marks made, an exception escaping the
generator, or exhaustion of the step budget (the source has no budget:
`fuelOut` stands for non-termination). -/
inductive ProcResult where
  | out (resp : ProxyResponse) (marks : List Mark)
  | raised (msg : String)
  | fuelOut
  deriving DecidableEq, Repr

/-- Python `pre.isPrefixOf`-style `startswith`. -/
def pyStartsWith (s pre : String) : Bool :=
  pre.toList.isPrefixOf s.toList

/-- One iteration of the duplicate-protocol loop of `_normalize_url`:
for a fixed `proto1`, if the URL starts with `proto1 + proto2` for some
protocol `proto2`, drop one `proto1` prefix. -/
def stripDupOnce (proto1 : List Char) (l : List Char) : List Char :=
  if (proto1 ++ "https://".toList).isPrefixOf l ∨
      (proto1 ++ "http://".toList).isPrefixOf l then
    l.drop proto1.length
  else l

/-- The full duplicate-protocol loop (`proto1` ranges over
`https://` then `http://`). -/
def stripDupProtocols (l : List Char) : List Char :=
  stripDupOnce "http://".toList (stripDupOnce "https://".toList l)

/-- `re.sub(r'(https?:/)([^/])', r'\1/\2', …, flags=IGNORECASE)`: insert
the missing slash after a single-slash scheme, scanning left to right
and resuming after each match. -/
def fixWrongSlashes : List Char → List Char
  | c1 :: c2 :: c3 :: c4 :: c5 :: c6 :: c7 :: c8 :: rest =>
    if [c1, c2, c3, c4, c5, c6, c7].map Char.toLower = "https:/".toList ∧
        c8 ≠ '/' then
      c1 :: c2 :: c3 :: c4 :: c5 :: c6 :: c7 :: '/' :: c8 ::
        fixWrongSlashes rest
    else if [c1, c2, c3, c4, c5, c6].map Char.toLower = "http:/".toList ∧
        c7 ≠ '/' then
      c1 :: c2 :: c3 :: c4 :: c5 :: c6 :: '/' :: c7 ::
        fixWrongSlashes (c8 :: rest)
    else c1 :: fixWrongSlashes (c2 :: c3 :: c4 :: c5 :: c6 :: c7 :: c8 :: rest)
  | [c1, c2, c3, c4, c5, c6, c7] =>
    if [c1, c2, c3, c4, c5, c6].map Char.toLower = "http:/".toList ∧
        c7 ≠ '/' then
      [c1, c2, c3, c4, c5, c6, '/', c7]
    else c1 :: fixWrongSlashes [c2, c3, c4, c5, c6, c7]
  | c :: rest => c :: fixWrongSlashes rest
  | [] => []

/-- `RequestProcessor._normalize_url` on a non-empty URL (the empty URL
raises before this logic runs): strip duplicated protocol prefixes,
expand protocol-relative `//…`, repair single-slash schemes, and default
to `https://`. -/
def normalizeUrlCore (l : List Char) : List Char :=
  let l1 := stripDupProtocols l
  let l2 := if "//".toList.isPrefixOf l1 then "https:".toList ++ l1 else l1
  let l3 := fixWrongSlashes l2
  if "http://".toList.isPrefixOf l3 ∨ "https://".toList.isPrefixOf l3 then l3
  else "https://".toList ++ l3

/-- String wrapper for `normalizeUrlCore`. -/
def normalizeUrlStr (url : String) : String :=
  String.mk (normalizeUrlCore url.toList)

/-- `urllib.parse.urlparse(url).hostname` for scheme-bearing URLs: the
netloc after the last `@`, before any `:port`, lowercased; empty when
absent (the source only tests its truthiness). -/
def hostnameOfUrl (url : String) : String :=
  match pyUrlparsePath.afterSchemeSep url.toList with
  | none => ""
  | some rest =>
    let netloc := rest.takeWhile (fun c => ¬ (c = '/' ∨ c = '?' ∨ c = '#'))
    let afterAt := (netloc.reverse.takeWhile (· ≠ '@')).reverse
    String.mk ((afterAt.takeWhile (· ≠ ':')).map Char.toLower)

/-- `f"{parsed.scheme}://{parsed.netloc}"` of `_handle_redirect`. -/
def schemeNetloc (url : String) : String :=
  match pyUrlparsePath.afterSchemeSep url.toList with
  | none => "://"
  | some rest =>
    String.mk ((url.toList.takeWhile (· ≠ ':')) ++ "://".toList ++
      rest.takeWhile (fun c => ¬ (c = '/' ∨ c = '?' ∨ c = '#')))

/-- `urllib.parse.urljoin(base, loc)` for a base of the shape
`scheme://netloc` (no path), which is the only base `_handle_redirect`
builds. -/
def urljoinApprox (base loc : String) : String :=
  if loc = "" then base
  else if pyStartsWith loc "/" then base ++ loc
  else base ++ "/" ++ loc

/-- `response.headers.multi_items()` filtered to `set-cookie`. -/
def collectSetCookies (hs : List (String × String)) : List String :=
  hs.filterMap (fun p => if p.1 = "set-cookie" then some p.2 else none)

/-- The `ProxyResponse` yielded for a non-redirect response. -/
def captureResponse (r : PyResponse) : ProxyResponse :=
  { currentUrl := r.url,
    cookie := collectSetCookies r.headers,
    headers := r.headers,
    status := r.statusCode,
    body := r.bodyText,
    error := none }

/-- The statuses `process_request` treats as redirects. -/
def redirectStatuses : List Nat := [301, 302, 303, 307, 308]

/-- `mark_failure` events for the selected proxy, if any. -/
def failMarks : Option String → List Mark
  | some p => [Mark.failure p]
  | none => []

/-- `mark_success` events for the selected proxy, if any. -/
def successMarks : Option String → List Mark
  | some p => [Mark.success p]
  | none => []

/-- The non-recursive head of `RequestProcessor._handle_redirect`: the
count check against `max_redirects`, the `Location` lookup, and the
resolution of a relative target against the response URL.  Returns the
URL to re-enter the processor with, or the message of the `ValueError`
it raises. -/
def handleRedirectStep (maxRedirects : Nat) (r : PyResponse)
    (redirectCount : Nat) : Except String String :=
  if redirectCount ≥ maxRedirects then
    Except.error ("Too many redirects (max: " ++ toString maxRedirects ++ ")")
  else
    match headerGet "location" r.headers with
    | none => Except.error "Redirect response without Location header"
    | some loc =>
      if pyStartsWith loc "http://" ∨ pyStartsWith loc "https://" then
        Except.ok loc
      else Except.ok (urljoinApprox (schemeNetloc r.url) loc)

/-- `RequestProcessor.process_request`, driven to its yielded response.
The call into `_handle_redirect` passes `redirect_count` at its default
`0` — exactly as the source call site does, since
`self._handle_redirect(response, request_headers, method, data)` omits
the count and the recursion re-enters `process_request`, which has no
count parameter to carry it.  `fuel` bounds the recursion depth the
source leaves unbounded; the yields of a nested call pass through
unchanged. -/
def processRequest (net : String → TransportOutcome) (maxRedirects : Nat)
    (proxy : Option String) : Nat → String → ProcResult
  | 0, _ => ProcResult.fuelOut
  | fuel + 1, url =>
    if url = "" then ProcResult.raised "Empty URL"
    else
      let target := normalizeUrlStr url
      if hostnameOfUrl target = "" then
        ProcResult.out ⟨target, [], [], 500, "",
          some ("Unexpected error: Invalid hostname: " ++ target)⟩ []
      else
        match net target with
        | TransportOutcome.timeout =>
          ProcResult.out ⟨target, [], [], 408, "", some "Request timeout"⟩ []
        | TransportOutcome.reqError m =>
          ProcResult.out ⟨target, [], [], 500, "",
            some ("Request failed: " ++ m)⟩ (failMarks proxy)
        | TransportOutcome.unexpected m =>
          ProcResult.out ⟨target, [], [], 500, "",
            some ("Unexpected error: " ++ m)⟩ (failMarks proxy)
        | TransportOutcome.ok r =>
          if r.statusCode ∈ redirectStatuses then
            match handleRedirectStep maxRedirects r 0 with
            | Except.error msg =>
              ProcResult.out ⟨target, [], [], 500, "",
                some ("Unexpected error: " ++ msg)⟩ (failMarks proxy)
            | Except.ok redirectUrl =>
              processRequest net maxRedirects proxy fuel redirectUrl
          else ProcResult.out (captureResponse r) (successMarks proxy)

/-! ## URL utilities: percent-decoding, path-data parsing and base64-URL
(src/utils/url_utils.py)

Python `str` is modelled as `List Char` here (`PyStr`), since these
functions manipulate individual characters; `bytes` is `List Nat` with
every element below 256. -/

/-- Python `str` for the character-level url_utils functions. -/
abbrev PyStr := List Char

/-- UTF-8 encoding of one scalar value (Python `str.encode('utf-8')` is
per-character since `str` holds scalar values). -/
def utf8EncodeChar (c : Char) : List Nat :=
  let n := c.toNat
  if n < 128 then [n]
  else if n < 2048 then [192 + n / 64, 128 + n % 64]
  else if n < 65536 then
    [224 + n / 4096, 128 + n / 64 % 64, 128 + n % 64]
  else
    [240 + n / 262144, 128 + n / 4096 % 64, 128 + n / 64 % 64, 128 + n % 64]

/-- `str.encode('utf-8')`. -/
def utf8Encode (s : PyStr) : List Nat :=
  s.flatMap utf8EncodeChar

/-- Strict UTF-8 decoding, as `bytes.decode('utf-8')`: rejects overlong
forms, surrogates, out-of-range values and truncated sequences
(`UnicodeDecodeError` is `none`).  The arity-split patterns expose the
lookahead bytes to structural recursion. -/
def utf8Decode : List Nat → Option (List Char)
  | [] => some []
  | [b] => if b < 128 then some [Char.ofNat b] else none
  | [b, b2] =>
    if b < 128 then (utf8Decode [b2]).map (Char.ofNat b :: ·)
    else if (194 ≤ b ∧ b ≤ 223) ∧ (128 ≤ b2 ∧ b2 ≤ 191) then
      some [Char.ofNat ((b - 192) * 64 + (b2 - 128))]
    else none
  | [b, b2, b3] =>
    if b < 128 then (utf8Decode [b2, b3]).map (Char.ofNat b :: ·)
    else if (194 ≤ b ∧ b ≤ 223) ∧ (128 ≤ b2 ∧ b2 ≤ 191) then
      (utf8Decode [b3]).map (Char.ofNat ((b - 192) * 64 + (b2 - 128)) :: ·)
    else if (224 ≤ b ∧ b ≤ 239) ∧ (128 ≤ b2 ∧ b2 ≤ 191) ∧
        (128 ≤ b3 ∧ b3 ≤ 191) ∧
        2048 ≤ (b - 224) * 4096 + (b2 - 128) * 64 + (b3 - 128) ∧
        ¬ (55296 ≤ (b - 224) * 4096 + (b2 - 128) * 64 + (b3 - 128) ∧
           (b - 224) * 4096 + (b2 - 128) * 64 + (b3 - 128) ≤ 57343) then
      some [Char.ofNat ((b - 224) * 4096 + (b2 - 128) * 64 + (b3 - 128))]
    else none
  | b :: b2 :: b3 :: b4 :: rest =>
    if b < 128 then
      (utf8Decode (b2 :: b3 :: b4 :: rest)).map (Char.ofNat b :: ·)
    else if (194 ≤ b ∧ b ≤ 223) ∧ (128 ≤ b2 ∧ b2 ≤ 191) then
      (utf8Decode (b3 :: b4 :: rest)).map
        (Char.ofNat ((b - 192) * 64 + (b2 - 128)) :: ·)
    else if (224 ≤ b ∧ b ≤ 239) ∧ (128 ≤ b2 ∧ b2 ≤ 191) ∧
        (128 ≤ b3 ∧ b3 ≤ 191) ∧
        2048 ≤ (b - 224) * 4096 + (b2 - 128) * 64 + (b3 - 128) ∧
        ¬ (55296 ≤ (b - 224) * 4096 + (b2 - 128) * 64 + (b3 - 128) ∧
           (b - 224) * 4096 + (b2 - 128) * 64 + (b3 - 128) ≤ 57343) then
      (utf8Decode (b4 :: rest)).map
        (Char.ofNat ((b - 224) * 4096 + (b2 - 128) * 64 + (b3 - 128)) :: ·)
    else if (240 ≤ b ∧ b ≤ 244) ∧ (128 ≤ b2 ∧ b2 ≤ 191) ∧
        (128 ≤ b3 ∧ b3 ≤ 191) ∧ (128 ≤ b4 ∧ b4 ≤ 191) ∧
        65536 ≤ (b - 240) * 262144 + (b2 - 128) * 4096 +
          (b3 - 128) * 64 + (b4 - 128) ∧
        (b - 240) * 262144 + (b2 - 128) * 4096 + (b3 - 128) * 64 +
          (b4 - 128) < 1114112 then
      (utf8Decode rest).map
        (Char.ofNat ((b - 240) * 262144 + (b2 - 128) * 4096 +
          (b3 - 128) * 64 + (b4 - 128)) :: ·)
    else none

/-- UTF-8 decoding with `errors='replace'`: an undecodable byte becomes
one U+FFFD and the scan resumes after it (the replacement granularity of
CPython is approximated per byte).  The arity-split patterns expose the
lookahead bytes to structural recursion. -/
def utf8DecodeReplace : List Nat → List Char
  | [] => []
  | [b] =>
    if b < 128 then [Char.ofNat b] else [Char.ofNat 65533]
  | [b, b2] =>
    if b < 128 then Char.ofNat b :: utf8DecodeReplace [b2]
    else if (194 ≤ b ∧ b ≤ 223) ∧ (128 ≤ b2 ∧ b2 ≤ 191) then
      [Char.ofNat ((b - 192) * 64 + (b2 - 128))]
    else Char.ofNat 65533 :: utf8DecodeReplace [b2]
  | [b, b2, b3] =>
    if b < 128 then Char.ofNat b :: utf8DecodeReplace [b2, b3]
    else if (194 ≤ b ∧ b ≤ 223) ∧ (128 ≤ b2 ∧ b2 ≤ 191) then
      Char.ofNat ((b - 192) * 64 + (b2 - 128)) :: utf8DecodeReplace [b3]
    else if (224 ≤ b ∧ b ≤ 239) ∧ (128 ≤ b2 ∧ b2 ≤ 191) ∧
        (128 ≤ b3 ∧ b3 ≤ 191) ∧
        2048 ≤ (b - 224) * 4096 + (b2 - 128) * 64 + (b3 - 128) ∧
        ¬ (55296 ≤ (b - 224) * 4096 + (b2 - 128) * 64 + (b3 - 128) ∧
           (b - 224) * 4096 + (b2 - 128) * 64 + (b3 - 128) ≤ 57343) then
      [Char.ofNat ((b - 224) * 4096 + (b2 - 128) * 64 + (b3 - 128))]
    else Char.ofNat 65533 :: utf8DecodeReplace [b2, b3]
  | b :: b2 :: b3 :: b4 :: rest =>
    if b < 128 then Char.ofNat b :: utf8DecodeReplace (b2 :: b3 :: b4 :: rest)
    else if (194 ≤ b ∧ b ≤ 223) ∧ (128 ≤ b2 ∧ b2 ≤ 191) then
      Char.ofNat ((b - 192) * 64 + (b2 - 128)) ::
        utf8DecodeReplace (b3 :: b4 :: rest)
    else if (224 ≤ b ∧ b ≤ 239) ∧ (128 ≤ b2 ∧ b2 ≤ 191) ∧
        (128 ≤ b3 ∧ b3 ≤ 191) ∧
        2048 ≤ (b - 224) * 4096 + (b2 - 128) * 64 + (b3 - 128) ∧
        ¬ (55296 ≤ (b - 224) * 4096 + (b2 - 128) * 64 + (b3 - 128) ∧
           (b - 224) * 4096 + (b2 - 128) * 64 + (b3 - 128) ≤ 57343) then
      Char.ofNat ((b - 224) * 4096 + (b2 - 128) * 64 + (b3 - 128)) ::
        utf8DecodeReplace (b4 :: rest)
    else if (240 ≤ b ∧ b ≤ 244) ∧ (128 ≤ b2 ∧ b2 ≤ 191) ∧
        (128 ≤ b3 ∧ b3 ≤ 191) ∧ (128 ≤ b4 ∧ b4 ≤ 191) ∧
        65536 ≤ (b - 240) * 262144 + (b2 - 128) * 4096 +
          (b3 - 128) * 64 + (b4 - 128) ∧
        (b - 240) * 262144 + (b2 - 128) * 4096 + (b3 - 128) * 64 +
          (b4 - 128) < 1114112 then
      Char.ofNat ((b - 240) * 262144 + (b2 - 128) * 4096 +
          (b3 - 128) * 64 + (b4 - 128)) :: utf8DecodeReplace rest
    else Char.ofNat 65533 :: utf8DecodeReplace (b2 :: b3 :: b4 :: rest)

/-- Regex/`urllib` hex digit. -/
def isHexDigit (c : Char) : Bool :=
  c.isDigit || ('a' ≤ c && c ≤ 'f') || ('A' ≤ c && c ≤ 'F')

/-- Value of a hex digit. -/
def hexVal (c : Char) : Nat :=
  if c.isDigit then c.toNat - '0'.toNat
  else if 'a' ≤ c then c.toNat - 'a'.toNat + 10
  else c.toNat - 'A'.toNat + 10

/-- Worker for `urllib.parse.unquote`: `pending` accumulates the bytes of
the current maximal `%XX` run; a literal character or a malformed escape
flushes the run through the replacing UTF-8 decoder. -/
def pyUnquoteAux : List Char → List Nat → List Char
  | [], pending => utf8DecodeReplace pending
  | c :: h1 :: h2 :: rest, pending =>
    if c = '%' then
      if isHexDigit h1 ∧ isHexDigit h2 then
        pyUnquoteAux rest (pending ++ [hexVal h1 * 16 + hexVal h2])
      else
        utf8DecodeReplace pending ++ '%' :: pyUnquoteAux (h1 :: h2 :: rest) []
    else utf8DecodeReplace pending ++ c :: pyUnquoteAux (h1 :: h2 :: rest) []
  | c :: rest, pending =>
    if c = '%' then utf8DecodeReplace pending ++ '%' :: pyUnquoteAux rest []
    else utf8DecodeReplace pending ++ c :: pyUnquoteAux rest []

/-- `urllib.parse.unquote`. -/
def pyUnquote (l : PyStr) : PyStr :=
  pyUnquoteAux l []

/-- Python `s.split(sep)` for a one-character separator: keeps empty
pieces, `"".split(sep) == ['']`. -/
def pySplit (sep : Char) : PyStr → List PyStr
  | [] => [[]]
  | c :: rest =>
    match pySplit sep rest with
    | [] => [[]]
    | s :: ss => if c = sep then [] :: s :: ss else (c :: s) :: ss

/-- `'/'.join`-style inverse of `pySplit` used to state the round-trip
claims: the decoded string `param/k1=v1/…/url` is the `'/'`-join of its
segments. -/
def joinSep (sep : Char) : List PyStr → PyStr
  | [] => []
  | [p] => p
  | p :: q :: rest => p ++ sep :: joinSep sep (q :: rest)

/-- `params[key] = value` on the Python dict of `parse_encoded_data`. -/
def strDictInsert (k v : PyStr) : List (PyStr × PyStr) →
    List (PyStr × PyStr)
  | [] => [(k, v)]
  | (k', v') :: rest =>
    if k' = k then (k, v) :: rest else (k', v') :: strDictInsert k v rest

/-- The `while i < len(parts)` loop of `parse_encoded_data`, with the
position `i` and the tail marker `n` made explicit: a `param` segment
whose successor contains `=` records the (URL-unescaped) pair and jumps
`n` past it; any other segment merely advances `i`, and the scan runs to
the end of the list.  Returns the accumulated dict and the final `n`. -/
def parseEncodedLoop : List PyStr → Nat → Nat → List (PyStr × PyStr) →
    List (PyStr × PyStr) × Nat
  | [], _, n, params => (params, n)
  | [_], _, n, params => (params, n)
  | p :: kv :: rest, i, n, params =>
    if p = "param".toList ∧ '=' ∈ kv then
      let key := kv.takeWhile (· ≠ '=')
      let value := (kv.dropWhile (· ≠ '=')).tail
      parseEncodedLoop rest (i + 2) (i + 2)
        (strDictInsert key (pyUnquote value) params)
    else parseEncodedLoop (kv :: rest) (i + 1) n params

/-- `parse_encoded_data`: split on `/`, run the scan, and return the
recorded parameters together with `parts[n:]`. -/
def parseEncodedData (s : PyStr) : List (PyStr × PyStr) × List PyStr :=
  if s.isEmpty then ([], [])
  else
    let parts := pySplit '/' s
    let pr := parseEncodedLoop parts 0 0 []
    (pr.1, parts.drop pr.2)

/-- The decoded string built from a parameter list and URL segments, the
input form the round-trip claim quantifies over:
`param/k1=v1/param/k2=v2/…/u1/u2/…`. -/
def buildEncodedString (ps : List (PyStr × PyStr)) (us : List PyStr) :
    PyStr :=
  joinSep '/'
    (ps.flatMap (fun kv => ["param".toList, kv.1 ++ '=' :: kv.2]) ++ us)

/-- No position of the segment list would be consumed as a `param` pair
by the scan. -/
def noParamPair : List PyStr → Bool
  | p :: kv :: rest =>
    if p = "param".toList ∧ '=' ∈ kv then false
    else noParamPair (kv :: rest)
  | _ => true

/-- The header-override allow-list of
`RequestHandler` (src/services/handlers/request_handler.py). -/
def allowedHeaderNames : List String :=
  ["User-Agent", "Origin", "Referer", "Cookie", "Content-Type", "Accept",
   "x-csrf-token", "Sec-Fetch-Dest", "Sec-Fetch-Mode", "Sec-Fetch-Site",
   "Authorization", "Range"]

/-- The standard base64 alphabet, index = sextet value. -/
def b64Alphabet : PyStr :=
  "ABCDEFGHIJKLMNOPQRSTUVWXYZabcdefghijklmnopqrstuvwxyz0123456789+/".toList

/-- Character for a sextet value. -/
def sextetChar (v : Nat) : Char :=
  b64Alphabet.getD v '?'

/-- Sextet value of a character, `none` outside the alphabet. -/
def charSextet (c : Char) : Option Nat :=
  b64Alphabet.findIdx? (fun x => x == c)

/-- `base64.b64encode` on a byte list: three bytes become four sextet
characters, a 1- or 2-byte tail is padded with `=`. -/
def b64Encode : List Nat → PyStr
  | [] => []
  | [b1] => [sextetChar (b1 / 4), sextetChar (b1 % 4 * 16), '=', '=']
  | [b1, b2] =>
    [sextetChar (b1 / 4), sextetChar (b1 % 4 * 16 + b2 / 16),
     sextetChar (b2 % 16 * 4), '=']
  | b1 :: b2 :: b3 :: rest =>
    sextetChar (b1 / 4) :: sextetChar (b1 % 4 * 16 + b2 / 16) ::
      sextetChar (b2 % 16 * 4 + b3 / 64) :: sextetChar (b3 % 64) ::
        b64Encode rest

/-- Four-character group decoding of `binascii.a2b_base64`: a final
group may end in one or two `=`; padding mid-stream ends the decode (the
remainder is ignored, as `a2b_base64` does); a leftover of one to three
characters is a padding error. -/
def b64DecodeGroups : PyStr → Option (List Nat)
  | [] => some []
  | c1 :: c2 :: c3 :: c4 :: rest =>
    match charSextet c1, charSextet c2 with
    | some v1, some v2 =>
      if c3 = '=' then
        if c4 = '=' then some [v1 * 4 + v2 / 16] else none
      else
        match charSextet c3 with
        | some v3 =>
          if c4 = '=' then some [v1 * 4 + v2 / 16, v2 % 16 * 16 + v3 / 4]
          else
            match charSextet c4 with
            | some v4 =>
              match b64DecodeGroups rest with
              | some bs =>
                some ((v1 * 4 + v2 / 16) :: (v2 % 16 * 16 + v3 / 4) ::
                  (v3 % 4 * 64 + v4) :: bs)
              | none => none
            | none => none
        | none => none
    | _, _ => none
  | _ => none

/-- `base64.b64decode` with the default `validate=False`: characters
outside the alphabet (and `=`) are discarded before the padding check. -/
def pyB64Decode (cs : PyStr) : Option (List Nat) :=
  b64DecodeGroups (cs.filter (fun c => (charSextet c).isSome || c == '='))

/-- Python `s.rstrip('=')`. -/
def dropTrailingEq (l : PyStr) : PyStr :=
  (l.reverse.dropWhile (fun c => c == '=')).reverse

/-- `encode_base64_url`: UTF-8 encode, base64, make URL-safe
(`+ → -`, `/ → _`), strip the `=` padding. -/
def encodeBase64Url (s : PyStr) : PyStr :=
  let b := b64Encode (utf8Encode s)
  let urlSafe := b.map (fun c =>
    if c = '+' then '-' else if c = '/' then '_' else c)
  dropTrailingEq urlSafe

/-- `decode_base64_url`: URL-unescape, translate the URL-safe alphabet
back, left-pad with `=` to a multiple of four, base64-decode, UTF-8
decode; `none` is the raised `ValueError`. -/
def decodeBase64Url (s : PyStr) : Option PyStr :=
  let u := pyUnquote s
  let t := u.map (fun c =>
    if c = '-' then '+' else if c = '_' then '/' else c)
  let padded :=
    if t.length % 4 ≠ 0 then t ++ List.replicate (4 - t.length % 4) '='
    else t
  match pyB64Decode padded with
  | none => none
  | some bs => utf8Decode bs

/-! ## Theorems -/

theorem dictGet_dictSet_self (k : String) (v : ProxyStats)
    (d : List (String × ProxyStats)) : dictGet k (dictSet k v d) = some v := by
  induction d with
  | nil => simp [dictGet, dictSet]
  | cons hd tl ih =>
    obtain ⟨k', v'⟩ := hd
    by_cases h : k' = k <;> simp [dictGet, dictSet, h, ih]

theorem dictGet_none_of_not_mem (k : String) (d : List (String × ProxyStats))
    (h : k ∉ d.map Prod.fst) : dictGet k d = none := by
  induction d with
  | nil => rfl
  | cons hd tl ih =>
    obtain ⟨k', v'⟩ := hd
    simp only [List.map_cons, List.mem_cons, not_or] at h
    have h1 : ¬ (k' = k) := fun he => h.1 he.symm
    simp [dictGet, h1, ih h.2]

theorem dictGet_dictDel_self (k : String) (d : List (String × ProxyStats))
    (hnd : (d.map Prod.fst).Nodup) : dictGet k (dictDel k d) = none := by
  induction d with
  | nil => simp [dictDel, dictGet]
  | cons hd tl ih =>
    obtain ⟨k', v'⟩ := hd
    simp only [List.map_cons, List.nodup_cons] at hnd
    by_cases h : k' = k
    · subst h
      simp only [dictDel, if_pos rfl]
      exact dictGet_none_of_not_mem k' tl hnd.1
    · simp [dictDel, dictGet, h, ih hnd.2]

theorem dictSet_map_fst_of_mem (k : String) (v : ProxyStats)
    (d : List (String × ProxyStats)) (hm : k ∈ d.map Prod.fst) :
    (dictSet k v d).map Prod.fst = d.map Prod.fst := by
  induction d with
  | nil => simp at hm
  | cons hd tl ih =>
    obtain ⟨k', v'⟩ := hd
    by_cases h : k' = k
    · simp [dictSet, h]
    · simp only [List.map_cons, List.mem_cons] at hm
      rcases hm with hm | hm

      · exact absurd hm.symm h
      · simp [dictSet, h, ih hm]

theorem mem_keys_of_dictGet_some (k : String) (v : ProxyStats)
    (d : List (String × ProxyStats)) (h : dictGet k d = some v) :
    k ∈ d.map Prod.fst := by
  induction d with
  | nil => simp [dictGet] at h
  | cons hd tl ih =>
    obtain ⟨k', v'⟩ := hd
    by_cases he : k' = k
    · simp [he]
    · simp only [dictGet, if_neg he] at h
      simp [ih h]

theorem not_mem_erase_self_of_nodup (a : String) (l : List String)
    (h : l.Nodup) : a ∉ l.erase a := by
  induction l with
  | nil => simp
  | cons b tl ih =>
    rcases List.nodup_cons.mp h with ⟨hb, htl⟩
    by_cases hba : b = a
    · subst hba
      rw [List.erase_cons_head]
      exact hb
    · rw [List.erase_cons_tail (by simpa using hba)]
      intro hm
      rcases List.mem_cons.mp hm with hm | hm
      · exact hba hm.symm
      · exact ih htl hm

/-- C5: a `mark_proxy_failure` call on an entry present in both structures
increments the failure counter and removes the entry from both exactly
when the new count exceeds 5; and, from fresh stats, the sixth
consecutive failure empties a one-proxy pool. -/
theorem C5_fail_increments_and_demotes (st : ProxyManagerState) (p : String)
    (s f : Nat) (hp : p ≠ "") (hw : p ∈ st.workingProxies)
    (hwnd : st.workingProxies.Nodup) (hsnd : (st.proxyStats.map Prod.fst).Nodup)
    (hs : dictGet p st.proxyStats = some ⟨s, f⟩) :
    (5 < f + 1 →
      p ∉ (markProxyFailure p st).workingProxies ∧
      dictGet p (markProxyFailure p st).proxyStats = none) ∧
    (f + 1 ≤ 5 →
      p ∈ (markProxyFailure p st).workingProxies ∧
      dictGet p (markProxyFailure p st).proxyStats = some ⟨s, f + 1⟩) ∧
    (∀ q : String, q ≠ "" →
      ((markProxyFailure q)^[6] (addProxy q ⟨[], []⟩)).workingProxies = [] ∧
      ((markProxyFailure q)^[6] (addProxy q ⟨[], []⟩)).proxyStats = []) := by
  have hkeys : (dictSet p ⟨s, f + 1⟩ st.proxyStats).map Prod.fst =
      st.proxyStats.map Prod.fst :=
    dictSet_map_fst_of_mem p _ st.proxyStats
      (mem_keys_of_dictGet_some p _ st.proxyStats hs)
  refine ⟨?_, ?_, ?_⟩
  · intro hgt
    simp only [markProxyFailure, if_neg hp, hs]
    rw [if_pos (show f + 1 > 5 from hgt)]
    simp only [removeProxy]
    rw [if_pos (show p ∈ st.workingProxies from hw)]
    refine ⟨not_mem_erase_self_of_nodup p _ hwnd, ?_⟩
    exact dictGet_dictDel_self p _ (hkeys ▸ hsnd)
  · intro hle
    simp only [markProxyFailure, if_neg hp, hs]
    rw [if_neg (show ¬ f + 1 > 5 by omega)]
    exact ⟨hw, dictGet_dictSet_self _ _ _⟩
  · intro q hq
    have hget : ∀ f : Nat, dictGet q [(q, ⟨0, f⟩)] = some ⟨0, f⟩ := by
      intro f; simp [dictGet]
    have hstep : ∀ f : Nat, f + 1 ≤ 5 →
        markProxyFailure q ⟨[q], [(q, ⟨0, f⟩)]⟩ = ⟨[q], [(q, ⟨0, f + 1⟩)]⟩ := by
      intro f hf
      simp [markProxyFailure, hq, dictGet, dictSet, show ¬ f + 1 > 5 by omega]
    have hlast : markProxyFailure q ⟨[q], [(q, ⟨0, 5⟩)]⟩ = ⟨[], []⟩ := by
      simp [markProxyFailure, hq, dictGet, dictSet, removeProxy, dictDel]
    have hadd : addProxy q ⟨[], []⟩ = ⟨[q], [(q, ⟨0, 0⟩)]⟩ := by
      simp [addProxy, hq]
    have : (markProxyFailure q)^[6] (addProxy q ⟨[], []⟩) = ⟨[], []⟩ := by
      rw [hadd]
      rw [show 6 = 5 + 1 by rfl, Function.iterate_succ_apply,
        hstep 0 (by omega)]
      rw [show 5 = 4 + 1 by rfl, Function.iterate_succ_apply,
        hstep 1 (by omega)]
      rw [show 4 = 3 + 1 by rfl, Function.iterate_succ_apply,
        hstep 2 (by omega)]
      rw [show 3 = 2 + 1 by rfl, Function.iterate_succ_apply,
        hstep 3 (by omega)]
      rw [show 2 = 1 + 1 by rfl, Function.iterate_succ_apply,
        hstep 4 (by omega)]
      rw [Function.iterate_one, hlast]
    simp [this]

/-- C5 witness: the theorem instantiated on a singleton pool holding
`http://p.example:8080` with five recorded failures; the sixth failure
removes the entry from both structures. -/
theorem C5_fail_increments_and_demotes_witness :
    let p := "http://p.example:8080"
    let st : ProxyManagerState := ⟨[p], [(p, ⟨2, 5⟩)]⟩
    p ∉ (markProxyFailure p st).workingProxies ∧
    dictGet p (markProxyFailure p st).proxyStats = none := by
  intro p st
  have h := C5_fail_increments_and_demotes st p 2 5 (by decide)
    (by simp [st, p]) (by simp [st]) (by simp [st]) (by simp [st, dictGet])
  exact h.1 (by omega)

/-- C10: marking success or failure for an endpoint absent from the stats
map (the empty string included) leaves the state unchanged. -/
theorem C10_mark_absent_noop (st : ProxyManagerState) (p : String)
    (hs : dictGet p st.proxyStats = none) :
    markProxySuccess p st = st ∧ markProxyFailure p st = st := by
  constructor
  · by_cases hp : p = ""
    · simp [markProxySuccess, hp]
    · simp [markProxySuccess, hp, hs]
  · by_cases hp : p = ""
    · simp [markProxyFailure, hp]
    · simp [markProxyFailure, hp, hs]
theorem validateRange_bounds (fs s0 e0 : Int) (hs0 : 0 ≤ s0) (he0 : 0 ≤ e0)
    (hfs : 0 < fs) :
    0 ≤ (validateRange fs s0 e0).1 ∧
    (validateRange fs s0 e0).1 ≤ (validateRange fs s0 e0).2 ∧
    (validateRange fs s0 e0).2 < fs := by
  simp only [validateRange, if_pos hfs]
  split_ifs <;> refine ⟨by omega, by omega, by omega⟩

theorem capRange_bounds (mrs fs s e : Int) (hmrs : 1 ≤ mrs) (hs : 0 ≤ s)
    (hse : s ≤ e) (hef : e < fs) :
    0 ≤ (capRange mrs fs s e).1 ∧
    (capRange mrs fs s e).1 ≤ (capRange mrs fs s e).2 ∧
    (capRange mrs fs s e).2 < fs ∧
    (capRange mrs fs s e).2 - (capRange mrs fs s e).1 ≤ mrs := by
  simp only [capRange]
  split_ifs with h1 h2
  · exact ⟨hs, by omega, by omega, by omega⟩
  · obtain ⟨hf, hd⟩ := h1
    exact ⟨hs, by omega, by omega, by omega⟩
  · refine ⟨hs, hse, hef, ?_⟩
    rw [not_and_or] at h1
    rcases h1 with h1 | h1 <;> omega

theorem parseCoreBounds (mrs fs s0 e0 : Int) (hmrs : 1 ≤ mrs)
    (hs0 : 0 ≤ s0) (he0 : 0 ≤ e0) :
    0 ≤ (capRange mrs fs (validateRange fs s0 e0).1
          (validateRange fs s0 e0).2).1 ∧
    0 ≤ (capRange mrs fs (validateRange fs s0 e0).1
          (validateRange fs s0 e0).2).2 ∧
    (0 < fs →
      (capRange mrs fs (validateRange fs s0 e0).1
          (validateRange fs s0 e0).2).1 ≤
        (capRange mrs fs (validateRange fs s0 e0).1
          (validateRange fs s0 e0).2).2 ∧
      (capRange mrs fs (validateRange fs s0 e0).1
          (validateRange fs s0 e0).2).2 < fs ∧
      (capRange mrs fs (validateRange fs s0 e0).1
          (validateRange fs s0 e0).2).2 -
        (capRange mrs fs (validateRange fs s0 e0).1
          (validateRange fs s0 e0).2).1 ≤ mrs) := by
  by_cases hfs : 0 < fs
  · have hv := validateRange_bounds fs s0 e0 hs0 he0 hfs
    have hc := capRange_bounds mrs fs _ _ hmrs hv.1 hv.2.1 hv.2.2
    exact ⟨hc.1, le_trans hc.1 hc.2.1,
      fun _ => ⟨hc.2.1, hc.2.2.1, hc.2.2.2⟩⟩
  · have h1 : validateRange fs s0 e0 = (s0, e0) := by
      rw [validateRange, if_neg hfs]
    have h2 : capRange mrs fs s0 e0 = (s0, e0) := by
      rw [capRange, if_neg]
      intro h
      exact hfs h.1
    simp only [h1]
    simp only [h2]
    exact ⟨hs0, he0, fun hfs2 => absurd hfs2 hfs⟩

/-- C1 counterexample: the claim fails as stated.  With `file_size = 0`
the header `bytes=5-3` yields `start = 5 > 3 = end` (the validation block
is skipped entirely when the size is unknown), and with
`file_size = 12 > 0`, `max_range_size = 10`, the header `bytes=0-10`
yields the span `end - start + 1 = 11 > max_range_size` (the cap tests
`end - start > max_range_size`, an off-by-one). -/
theorem C1_counterexample :
    (parseRangeHeader 104857600 (some "bytes=5-3") 0 = (5, 3) ∧
      ¬ (parseRangeHeader 104857600 (some "bytes=5-3") 0).1 ≤
        (parseRangeHeader 104857600 (some "bytes=5-3") 0).2) ∧
    (parseRangeHeader 10 (some "bytes=0-10") 12 = (0, 10) ∧
      ¬ (parseRangeHeader 10 (some "bytes=0-10") 12).2 -
        (parseRangeHeader 10 (some "bytes=0-10") 12).1 + 1 ≤ 10) := by
  decide

/-- C1 (amended): for `max_range_size ≥ 1`, the streamer's range parser
returns non-negative `start` and `end`; when `file_size > 0` it
guarantees `start ≤ end < file_size`, and when additionally the Range
header matches the `bytes=NUM-NUM?` pattern the difference `end - start`
is at most `max_range_size` (so the span `end-start+1` is bounded by
`max_range_size + 1`, not `max_range_size`).  When `file_size = 0`,
`start ≤ end` can fail; when the header is absent or unparseable the span
is the whole file, uncapped. -/
theorem C1_parse_range_bounds (mrs fs : Int) (h : Option String)
    (hmrs : 1 ≤ mrs) :
    0 ≤ (parseRangeHeader mrs h fs).1 ∧ 0 ≤ (parseRangeHeader mrs h fs).2 ∧
    (0 < fs →
      (parseRangeHeader mrs h fs).1 ≤ (parseRangeHeader mrs h fs).2 ∧
      (parseRangeHeader mrs h fs).2 < fs ∧
      ((∃ s, h = some s ∧ (matchBytesRange s.toList).isSome) →
        (parseRangeHeader mrs h fs).2 - (parseRangeHeader mrs h fs).1 ≤ mrs)) := by
  cases h with
  | none =>
    simp only [parseRangeHeader]
    refine ⟨le_refl 0, ?_, fun hfs => ⟨?_, ?_, ?_⟩⟩
    · split <;> omega
    · split <;> omega
    · split <;> omega
    · rintro ⟨t, ht, _⟩
      cases ht
  | some s =>
    by_cases hse : s = ""
    · subst hse
      have hm0 : matchBytesRange "".toList = none := rfl
      simp only [parseRangeHeader, if_pos rfl, hm0]
      refine ⟨le_refl 0, ?_, fun hfs => ⟨?_, ?_, ?_⟩⟩
      · split <;> omega
      · split <;> omega
      · split <;> omega
      · rintro ⟨t, ht, hm⟩
        obtain rfl : "" = t := Option.some.inj ht
        exact absurd hm (by decide)
    · cases hm : matchBytesRange s.toList with
      | none =>
        simp only [parseRangeHeader, if_neg hse, hm]
        refine ⟨le_refl 0, ?_, fun hfs => ⟨?_, ?_, ?_⟩⟩
        · split <;> omega
        · split <;> omega
        · split <;> omega
        · rintro ⟨t, ht, hsm⟩
          obtain rfl : s = t := Option.some.inj ht
          rw [hm] at hsm
          simp at hsm
      | some pr =>
        obtain ⟨d1, d2⟩ := pr
        simp only [parseRangeHeader, if_neg hse, hm]
        have hcore := parseCoreBounds mrs fs ((digitsToNat d1 : Nat) : Int)
          (if d2.isEmpty then (if 0 < fs then fs - 1 else 0)
            else ((digitsToNat d2 : Nat) : Int))
          hmrs (by omega) (by split_ifs <;> omega)
        exact ⟨hcore.1, hcore.2.1,
          fun hfs => ⟨(hcore.2.2 hfs).1, (hcore.2.2 hfs).2.1,
            fun _ => (hcore.2.2 hfs).2.2⟩⟩

/-- C1 witness: the amended bounds at the concrete call
`_parse_range_header("bytes=100-199", 1000)` with the default
`max_range_size`. -/
theorem C1_parse_range_bounds_witness :
    (1 : Int) ≤ 104857600 ∧
    (0 ≤ (parseRangeHeader 104857600 (some "bytes=100-199") 1000).1 ∧
     0 ≤ (parseRangeHeader 104857600 (some "bytes=100-199") 1000).2 ∧
     ((0 : Int) < 1000 →
       (parseRangeHeader 104857600 (some "bytes=100-199") 1000).1 ≤
         (parseRangeHeader 104857600 (some "bytes=100-199") 1000).2 ∧
       (parseRangeHeader 104857600 (some "bytes=100-199") 1000).2 < 1000 ∧
       ((∃ s, (some "bytes=100-199" : Option String) = some s ∧
           (matchBytesRange s.toList).isSome) →
         (parseRangeHeader 104857600 (some "bytes=100-199") 1000).2 -
           (parseRangeHeader 104857600 (some "bytes=100-199") 1000).1 ≤
             104857600))) :=
  ⟨by decide, C1_parse_range_bounds 104857600 1000 (some "bytes=100-199")
    (by decide)⟩

/-- C6: whenever `stream_video` serves in range mode with a known file
size, the response has status 206, a `Content-Range` of
`bytes start-end/file_size`, and a `Content-Length` of `end-start+1`. -/
theorem C6_range_mode_known_size (mrs fs : Int) (ct : String)
    (rh : Option String) (hfs : 0 < fs)
    (hrr : (streamVideoFraming mrs fs ct rh).rangeRequested = true) :
    (streamVideoFraming mrs fs ct rh).statusCode = 206 ∧
    headerGet "Content-Range" (streamVideoFraming mrs fs ct rh).responseHeaders
      = some ("bytes " ++ toString (streamVideoFraming mrs fs ct rh).startByte
          ++ "-" ++ toString (streamVideoFraming mrs fs ct rh).endByte ++ "/"
          ++ toString fs) ∧
    headerGet "Content-Length"
        (streamVideoFraming mrs fs ct rh).responseHeaders
      = some (toString ((streamVideoFraming mrs fs ct rh).endByte -
          (streamVideoFraming mrs fs ct rh).startByte + 1)) := by
  simp only [streamVideoFraming] at hrr ⊢
  rw [hrr]
  simp [prepareResponseHeaders, headerGet, hfs]

/-- C6 witness: the concrete request `Range: bytes=0-99` against a
1000-byte file is served with status 206, `Content-Range: bytes 0-99/1000`
and `Content-Length: 100`. -/
theorem C6_range_mode_known_size_witness :
    (0 : Int) < 1000 ∧
    ((streamVideoFraming 104857600 1000 "video/mp4"
        (some "bytes=0-99")).rangeRequested = true) ∧
    (streamVideoFraming 104857600 1000 "video/mp4"
        (some "bytes=0-99")).statusCode = 206 ∧
    headerGet "Content-Range" (streamVideoFraming 104857600 1000 "video/mp4"
        (some "bytes=0-99")).responseHeaders
      = some ("bytes " ++
          toString (streamVideoFraming 104857600 1000 "video/mp4"
            (some "bytes=0-99")).startByte ++ "-" ++
          toString (streamVideoFraming 104857600 1000 "video/mp4"
            (some "bytes=0-99")).endByte ++ "/" ++ toString (1000 : Int)) ∧
    headerGet "Content-Length" (streamVideoFraming 104857600 1000 "video/mp4"
        (some "bytes=0-99")).responseHeaders
      = some (toString ((streamVideoFraming 104857600 1000 "video/mp4"
          (some "bytes=0-99")).endByte -
          (streamVideoFraming 104857600 1000 "video/mp4"
            (some "bytes=0-99")).startByte + 1)) := by
  refine ⟨by decide, by decide, ?_⟩
  exact C6_range_mode_known_size 104857600 1000 "video/mp4"
    (some "bytes=0-99") (by decide) (by decide)

theorem tryHeadRequest_methodUsed (o : Except String PyResponse) :
    (tryHeadRequest o).methodUsed = "HEAD" := by
  cases o <;> rfl

/-- C4 counterexample: a HEAD response with status 404 but a positive
`Content-Length` is returned immediately with `method_used = HEAD` — the
code never checks the status, contradicting the claimed
`status in 200,206` condition under which alone the HEAD result may be
returned. -/
theorem C4_counterexample :
    getContentInfo true
        (Except.ok ⟨404, [("content-length", "100"),
          ("content-type", "video/mp4")], "https://h.example/v.mp4", ""⟩)
        [("Range 0-0", Except.error "boom")]
      = tryHeadRequest (Except.ok ⟨404, [("content-length", "100"),
          ("content-type", "video/mp4")], "https://h.example/v.mp4", ""⟩) ∧
    (tryHeadRequest (Except.ok ⟨404, [("content-length", "100"),
        ("content-type", "video/mp4")], "https://h.example/v.mp4", ""⟩)).methodUsed
      = "HEAD" ∧
    (tryHeadRequest (Except.ok ⟨404, [("content-length", "100"),
        ("content-type", "video/mp4")], "https://h.example/v.mp4", ""⟩)).statusCode
      = 404 ∧
    getContentInfo true
        (Except.ok ⟨404, [("content-length", "100"),
          ("content-type", "video/mp4")], "https://h.example/v.mp4", ""⟩)
        [("Range 0-0", Except.error "boom")]
      ≠ tryGetRequests [("Range 0-0", Except.error "boom")] := by
  decide

/-- C4 (amended): with `use_head` set, the prober returns the HEAD probe
result (with `method_used = HEAD`) exactly when the HEAD request raised
no exception and its `Content-Length` header parses as a positive
integer — the response status is never consulted; in every other case it
falls through to the GET strategy sequence. -/
theorem C4_head_probe_decision (headOutcome : Except String PyResponse)
    (getOutcomes : List (String × Except String PyResponse)) :
    (0 < (tryHeadRequest headOutcome).contentLength →
      getContentInfo true headOutcome getOutcomes = tryHeadRequest headOutcome
        ∧ (tryHeadRequest headOutcome).methodUsed = "HEAD") ∧
    (¬ 0 < (tryHeadRequest headOutcome).contentLength →
      getContentInfo true headOutcome getOutcomes
        = tryGetRequests getOutcomes) ∧
    (0 < (tryHeadRequest headOutcome).contentLength ↔
      ∃ r, headOutcome = Except.ok r ∧
        ∃ v, headerGet "content-length" r.headers = some v ∧ v ≠ "" ∧
          ∃ k, pyInt v = some k ∧ 0 < k) := by
  refine ⟨?_, ?_, ?_⟩
  · intro h
    exact ⟨by simp [getContentInfo, h], tryHeadRequest_methodUsed _⟩
  · intro h
    simp [getContentInfo, h]
  · cases headOutcome with
    | error e => simp [tryHeadRequest]
    | ok r =>
      cases hcl : headerGet "content-length" r.headers with
      | none => simp [tryHeadRequest, hcl]
      | some v =>
        by_cases hv : v = ""
        · simp [tryHeadRequest, hcl, hv]
        · cases hpi : pyInt v with
          | none => simp [tryHeadRequest, hcl, hv, hpi]
          | some k => simp [tryHeadRequest, hcl, hv, hpi]

/-- C4 witness: a HEAD response with `Content-Length: 500` is returned
immediately by the prober. -/
theorem C4_head_probe_decision_witness :
    0 < (tryHeadRequest (Except.ok
      (⟨200, [("content-length", "500")], "https://h.example/a", ""⟩ :
        PyResponse))).contentLength ∧
    getContentInfo true
        (Except.ok (⟨200, [("content-length", "500")],
          "https://h.example/a", ""⟩ : PyResponse)) []
      = tryHeadRequest (Except.ok
          (⟨200, [("content-length", "500")], "https://h.example/a", ""⟩ :
            PyResponse)) :=
  ⟨by decide, ((C4_head_probe_decision _ []).1 (by decide)).1⟩

/-- C9: when the probed response has no `Accept-Ranges` header, the probe
result (HEAD or GET path alike) reports `accept_ranges = "bytes"`; on a
concrete large file with a video-looking URL and a neutral content type
this default makes `_is_video_content` classify the content as video even
though the origin never advertised range support. -/
theorem C9_accept_ranges_default (r : PyResponse) (d : String)
    (har : headerGet "accept-ranges" r.headers = none) :
    (tryHeadRequest (Except.ok r)).acceptRanges = "bytes" ∧
    (tryGetRequests [(d, Except.ok r)]).acceptRanges = "bytes" ∧
    isVideoContent "https://h.example/stream/file.bin"
      (tryHeadRequest (Except.ok ⟨200,
        [("content-type", "application/zip"), ("content-length", "2000000")],
        "https://h.example/stream/file.bin", ""⟩)) = true := by
  refine ⟨?_, ?_, by decide⟩
  · simp [tryHeadRequest, har]
  · simp [tryGetRequests, har]

/-- C9 witness: a concrete response carrying only `Content-Type` gets the
`accept_ranges = "bytes"` default. -/
theorem C9_accept_ranges_default_witness :
    headerGet "accept-ranges" [("content-type", "video/mp4")] = none ∧
    (tryHeadRequest (Except.ok
      (⟨200, [("content-type", "video/mp4")], "https://h.example/a", ""⟩ :
        PyResponse))).acceptRanges = "bytes" :=
  ⟨by decide, (C9_accept_ranges_default
    ⟨200, [("content-type", "video/mp4")], "https://h.example/a", ""⟩
    "Range 0-0" (by decide)).1⟩

/-- C3: evaluation of the code at the failing input.  Against an origin
that answers every URL with a 302 back to itself and with
`max_redirects = 5`, the processor follows the loop forever (for every
step budget it only exhausts the budget): the `TooManyRedirects` error is
never raised, because every hop re-enters `_handle_redirect` with the
default `redirect_count = 0` — the incremented count is never passed
through the recursive `process_request` call. -/
theorem C3_redirect_loop_never_fails (fuel : Nat) :
    processRequest
        (fun u => TransportOutcome.ok
          ⟨302, [("location", "https://loop.example/a")], u, ""⟩)
        5 (some "http://p.example:8080") fuel "https://loop.example/a"
      = ProcResult.fuelOut := by
  induction fuel with
  | zero => rfl
  | succ n ih => exact Eq.trans (by rfl) ih

/-- C8 counterexample: on a transport timeout the yielded response is the
408 `Request timeout` one, but the selected proxy receives no failure
mark (the `except httpx.TimeoutException` branch, unlike the two other
error branches, never calls `mark_proxy_failure`). -/
theorem C8_counterexample :
    processRequest (fun _ => TransportOutcome.timeout) 5
        (some "http://p.example:8080") 1 "https://h.example/a"
      = ProcResult.out ⟨"https://h.example/a", [], [], 408, "",
          some "Request timeout"⟩ [] := by
  rfl

/-- C8 (amended): a transport timeout yields status 408 with error
`Request timeout` and no proxy mark at all; any other transport error
yields 500 with `Request failed: …` and a failure mark; an unexpected
error yields 500 with `Unexpected error: …` and a failure mark; and any
received non-redirect HTTP response — 4xx/5xx included — yields the
captured response with a success mark. -/
theorem C8_error_mapping (net : String → TransportOutcome) (mr : Nat)
    (proxy : Option String) (fuel : Nat) (url : String)
    (hne : ¬ url = "")
    (hhost : ¬ hostnameOfUrl (normalizeUrlStr url) = "") :
    (net (normalizeUrlStr url) = TransportOutcome.timeout →
      processRequest net mr proxy (fuel + 1) url =
        ProcResult.out ⟨normalizeUrlStr url, [], [], 408, "",
          some "Request timeout"⟩ []) ∧
    (∀ m, net (normalizeUrlStr url) = TransportOutcome.reqError m →
      processRequest net mr proxy (fuel + 1) url =
        ProcResult.out ⟨normalizeUrlStr url, [], [], 500, "",
          some ("Request failed: " ++ m)⟩ (failMarks proxy)) ∧
    (∀ m, net (normalizeUrlStr url) = TransportOutcome.unexpected m →
      processRequest net mr proxy (fuel + 1) url =
        ProcResult.out ⟨normalizeUrlStr url, [], [], 500, "",
          some ("Unexpected error: " ++ m)⟩ (failMarks proxy)) ∧
    (∀ r, net (normalizeUrlStr url) = TransportOutcome.ok r →
      ¬ r.statusCode ∈ redirectStatuses →
      processRequest net mr proxy (fuel + 1) url =
        ProcResult.out (captureResponse r) (successMarks proxy)) := by
  refine ⟨?_, ?_, ?_, ?_⟩
  · intro hnet
    simp only [processRequest, if_neg hne, if_neg hhost, hnet]
  · intro m hnet
    simp only [processRequest, if_neg hne, if_neg hhost, hnet]
  · intro m hnet
    simp only [processRequest, if_neg hne, if_neg hhost, hnet]
  · intro r hnet hred
    simp only [processRequest, if_neg hne, if_neg hhost, hnet, if_neg hred]

/-- C8 witness: the timeout case of the mapping at a concrete URL and
proxy. -/
theorem C8_error_mapping_witness :
    ¬ "https://h.example/a" = "" ∧
    ¬ hostnameOfUrl (normalizeUrlStr "https://h.example/a") = "" ∧
    processRequest (fun _ => TransportOutcome.timeout) 5
        (some "http://p.example:8080") (0 + 1) "https://h.example/a"
      = ProcResult.out ⟨normalizeUrlStr "https://h.example/a", [], [], 408,
          "", some "Request timeout"⟩ [] :=
  ⟨by decide, by decide,
    (C8_error_mapping (fun _ => TransportOutcome.timeout) 5
      (some "http://p.example:8080") 0 "https://h.example/a"
      (by decide) (by decide)).1 rfl⟩

/-- C10 witness: on a concrete one-proxy pool, marking an unknown endpoint
and the empty endpoint are both no-ops. -/
theorem C10_mark_absent_noop_witness :
    let st : ProxyManagerState :=
      ⟨["http://p.example:8080"], [("http://p.example:8080", ⟨1, 2⟩)]⟩
    markProxySuccess "" st = st ∧ markProxyFailure "" st = st := by
  intro st
  exact C10_mark_absent_noop st "" (by simp [st, dictGet])


theorem pyUnquoteAux_no_percent (l : PyStr) (h : ∀ c ∈ l, c ≠ '%') :
    pyUnquoteAux l [] = l := by
  induction l with
  | nil => rfl
  | cons c rest ih =>
    have hc : c ≠ '%' := h c (by simp)
    have hr : ∀ x ∈ rest, x ≠ '%' := fun x hx => h x (by simp [hx])
    match rest, ih, hr with
    | [], _, _ => simp [pyUnquoteAux, hc, utf8DecodeReplace]
    | [h1], ih, hr =>
      have hh1 : h1 ≠ '%' := hr h1 (by simp)
      simp [pyUnquoteAux, hc, hh1, utf8DecodeReplace, ih hr]
    | h1 :: h2 :: rest2, ih, hr =>
      simp [pyUnquoteAux, hc, utf8DecodeReplace, ih hr]

theorem pyUnquote_no_percent (l : PyStr) (h : ∀ c ∈ l, c ≠ '%') :
    pyUnquote l = l :=
  pyUnquoteAux_no_percent l h

theorem pySplit_ne_nil (sep : Char) (l : PyStr) : pySplit sep l ≠ [] := by
  cases l with
  | nil => simp [pySplit]
  | cons c rest =>
    cases hps : pySplit sep rest with
    | nil => simp [pySplit, hps]
    | cons s ss =>
      simp only [pySplit, hps]
      split <;> simp

theorem pySplit_prefix (sep : Char) (p l : PyStr) (hp : ∀ c ∈ p, c ≠ sep)
    (s : PyStr) (ss : List PyStr) (hl : pySplit sep l = s :: ss) :
    pySplit sep (p ++ l) = (p ++ s) :: ss := by
  induction p with
  | nil => simpa using hl
  | cons c p' ih =>
    have hc : c ≠ sep := hp c (by simp)
    have hp' : ∀ x ∈ p', x ≠ sep := fun x hx => hp x (by simp [hx])
    have h2 := ih hp'
    show pySplit sep (c :: (p' ++ l)) = ((c :: p') ++ s) :: ss
    simp only [pySplit, h2]
    rw [if_neg hc]
    simp

theorem pySplit_sep_cons (sep : Char) (l : PyStr) :
    pySplit sep (sep :: l) = [] :: pySplit sep l := by
  cases hps : pySplit sep l with
  | nil => exact absurd hps (pySplit_ne_nil sep l)
  | cons s ss => simp [pySplit, hps]

theorem pySplit_joinSep (parts : List PyStr) (hne : parts ≠ [])
    (hfree : ∀ p ∈ parts, ∀ c ∈ p, c ≠ '/') :
    pySplit '/' (joinSep '/' parts) = parts := by
  induction parts with
  | nil => exact absurd rfl hne
  | cons p rest ih =>
    cases rest with
    | nil =>
      have h2 := pySplit_prefix '/' p [] (hfree p (by simp)) [] [] rfl
      simpa [joinSep] using h2
    | cons q rest2 =>
      have hrest := ih (by simp)
        (fun pp hpp => hfree pp (by simp [hpp]))
      have h1 : pySplit '/' ('/' :: joinSep '/' (q :: rest2))
          = [] :: (q :: rest2) := by
        rw [pySplit_sep_cons, hrest]
      have h2 := pySplit_prefix '/' p ('/' :: joinSep '/' (q :: rest2))
        (hfree p (by simp)) [] (q :: rest2) h1
      simpa [joinSep] using h2

theorem takeWhile_key (k v : PyStr) (hk : ∀ c ∈ k, c ≠ '=') :
    (k ++ '=' :: v).takeWhile (· ≠ '=') = k ∧
    (k ++ '=' :: v).dropWhile (· ≠ '=') = '=' :: v := by
  induction k with
  | nil => simp
  | cons c k2 ih =>
    have hc : c ≠ '=' := hk c (by simp)
    have hk2 : ∀ x ∈ k2, x ≠ '=' := fun x hx => hk x (by simp [hx])
    have h2 := ih hk2
    simp only [ne_eq, decide_not] at h2 ⊢
    simp [List.cons_append, List.takeWhile_cons, List.dropWhile_cons, hc,
      h2.1, h2.2]

theorem strDictInsert_of_not_mem (k v : PyStr) (d : List (PyStr × PyStr))
    (h : k ∉ d.map Prod.fst) : strDictInsert k v d = d ++ [(k, v)] := by
  induction d with
  | nil => rfl
  | cons kv2 rest ih =>
    obtain ⟨k2, v2⟩ := kv2
    simp only [List.map_cons, List.mem_cons, not_or] at h
    have hne : ¬ (k2 = k) := fun he => h.1 he.symm
    simp [strDictInsert, hne, ih h.2]

theorem foldl_strDictInsert (ps : List (PyStr × PyStr))
    (acc : List (PyStr × PyStr))
    (hdisj : ∀ kv ∈ ps, kv.1 ∉ acc.map Prod.fst)
    (hnd : (ps.map Prod.fst).Nodup) :
    ps.foldl (fun a kv => strDictInsert kv.1 (pyUnquote kv.2) a) acc
      = acc ++ ps.map (fun kv => (kv.1, pyUnquote kv.2)) := by
  induction ps generalizing acc with
  | nil => simp
  | cons kv ps2 ih =>
    obtain ⟨k, v⟩ := kv
    simp only [List.map_cons, List.nodup_cons] at hnd
    rw [List.foldl_cons, strDictInsert_of_not_mem k (pyUnquote v) acc
      (hdisj (k, v) (by simp)), ih]
    · simp
    · intro kv2 hkv2
      simp only [List.map_append, List.map_cons]
      intro hmem
      rcases List.mem_append.mp hmem with hmem | hmem
      · exact hdisj kv2 (by simp [hkv2]) hmem
      · simp only [List.map_nil, List.mem_singleton] at hmem
        exact hnd.1 (hmem ▸ List.mem_map_of_mem Prod.fst hkv2)
    · exact hnd.2

theorem parseEncodedLoop_stuck (us : List PyStr) (i n : Nat)
    (acc : List (PyStr × PyStr)) (h : noParamPair us = true) :
    parseEncodedLoop us i n acc = (acc, n) := by
  induction us generalizing i with
  | nil => rfl
  | cons u rest ih =>
    cases rest with
    | nil => rfl
    | cons kv rest2 =>
      simp only [noParamPair] at h
      by_cases hcond : u = "param".toList ∧ '=' ∈ kv
      · rw [if_pos hcond] at h
        exact absurd h (by simp)
      · rw [if_neg hcond] at h
        simp only [parseEncodedLoop, if_neg hcond]
        exact ih (i + 1) h


theorem length_pairSegs (ps : List (PyStr × PyStr)) :
    (ps.flatMap (fun kv => ["param".toList, kv.1 ++ '=' :: kv.2])).length
      = 2 * ps.length := by
  induction ps with
  | nil => rfl
  | cons kv ps2 ih =>
    rw [List.flatMap_cons, List.length_append, ih]
    simp only [List.length_cons, List.length_nil]
    omega

theorem parseEncodedLoop_pairs (ps : List (PyStr × PyStr))
    (tailParts : List PyStr) (i : Nat) (acc : List (PyStr × PyStr))
    (hk : ∀ kv ∈ ps, ∀ c ∈ kv.1, c ≠ '=') :
    parseEncodedLoop
        ((ps.flatMap (fun kv => ["param".toList, kv.1 ++ '=' :: kv.2]))
          ++ tailParts) i i acc
      = parseEncodedLoop tailParts (i + 2 * ps.length) (i + 2 * ps.length)
          (ps.foldl (fun a kv => strDictInsert kv.1 (pyUnquote kv.2) a) acc)
      := by
  induction ps generalizing i acc with
  | nil => simp
  | cons kv ps2 ih =>
    obtain ⟨k, v⟩ := kv
    have hkk : ∀ c ∈ k, c ≠ '=' :=
      fun c hc => hk (k, v) (by simp) c hc
    have htw := takeWhile_key k v hkk
    have hmem : '=' ∈ k ++ '=' :: v := by simp
    simp only [List.flatMap_cons, List.cons_append, List.append_assoc]
    rw [parseEncodedLoop]
    rw [if_pos ⟨rfl, hmem⟩]
    simp only [htw.1, htw.2, List.tail_cons]
    simp only [List.nil_append]
    rw [ih (i + 2) _ (fun kv2 h2 => hk kv2 (by simp [h2]))]
    simp only [List.foldl_cons, List.length_cons]
    have harith : i + 2 + 2 * ps2.length = i + 2 * (ps2.length + 1) := by
      ring
    rw [harith]

theorem joinSep_ne_nil (parts : List PyStr) (h1 : parts ≠ [])
    (h2 : parts ≠ [[]]) : joinSep '/' parts ≠ [] := by
  match parts with
  | [] => exact absurd rfl h1
  | [p] =>
    cases p with
    | nil => exact absurd rfl h2
    | cons c rest => simp [joinSep]
  | p :: q :: rest =>
    cases p with
    | nil => simp [joinSep]
    | cons c rest2 => simp [joinSep]


/-- C2 (amended): the round-trip holds under the constraints the scan
imposes: keys from the header allow-list (distinct), values free of `/`
and `%`, and URL segments containing no `param` segment whose successor
contains `=` (the scan runs over the whole string, so such a pair inside
the URL would be consumed); the degenerate empty-URL-segment singleton is
excluded.  Then parsing the decoded string `param/k1=v1/…/url` returns
exactly the parameters and exactly the URL segments. -/
theorem C2_parse_encoded_roundtrip (ps : List (PyStr × PyStr))
    (us : List PyStr)
    (hkeys : ∀ kv ∈ ps, ∃ h ∈ allowedHeaderNames, kv.1 = h.toList)
    (hnodup : (ps.map Prod.fst).Nodup)
    (hvals : ∀ kv ∈ ps, ∀ c ∈ kv.2, c ≠ '/' ∧ c ≠ '%')
    (hus : ∀ u ∈ us, ∀ c ∈ u, c ≠ '/')
    (husp : noParamPair us = true)
    (hdeg : ¬ (ps = [] ∧ us = [[]])) :
    parseEncodedData (buildEncodedString ps us) = (ps, us) := by
  have hallow : ∀ h ∈ allowedHeaderNames, ∀ c ∈ h.toList,
      c ≠ '=' ∧ c ≠ '/' := by decide
  have hknoeq : ∀ kv ∈ ps, ∀ c ∈ kv.1, c ≠ '=' := by
    intro kv hkv c hc
    obtain ⟨hh, hmem, heq⟩ := hkeys kv hkv
    exact (hallow hh hmem c (heq ▸ hc)).1
  have hknosl : ∀ kv ∈ ps, ∀ c ∈ kv.1, c ≠ '/' := by
    intro kv hkv c hc
    obtain ⟨hh, hmem, heq⟩ := hkeys kv hkv
    exact (hallow hh hmem c (heq ▸ hc)).2
  have hparamfree : ∀ c ∈ "param".toList, c ≠ '/' := by decide
  have hfree : ∀ p ∈ (ps.flatMap
      (fun kv => ["param".toList, kv.1 ++ '=' :: kv.2])) ++ us,
      ∀ c ∈ p, c ≠ '/' := by
    intro p hp
    rcases List.mem_append.mp hp with hp | hp
    · obtain ⟨kv, hkv, hpin⟩ := List.mem_flatMap.mp hp
      simp only [List.mem_cons, List.mem_singleton, List.not_mem_nil,
        or_false] at hpin
      rcases hpin with rfl | rfl
      · exact hparamfree
      · intro c hc
        rcases List.mem_append.mp hc with hc | hc
        · exact hknosl kv hkv c hc
        · rcases List.mem_cons.mp hc with rfl | hc
          · decide
          · exact (hvals kv hkv c hc).1
    · exact hus p hp
  by_cases hemp : ps = [] ∧ us = []
  · obtain ⟨h1, h2⟩ := hemp
    subst h1; subst h2
    rfl
  have hpartsne : (ps.flatMap
      (fun kv => ["param".toList, kv.1 ++ '=' :: kv.2])) ++ us ≠ [] := by
    intro h0
    rcases List.append_eq_nil.mp h0 with ⟨hfm, hus0⟩
    cases psh : ps with
    | nil => exact hemp ⟨psh, hus0⟩
    | cons kv ps2 => rw [psh] at hfm; simp [List.flatMap_cons] at hfm
  have hpartsnn : (ps.flatMap
      (fun kv => ["param".toList, kv.1 ++ '=' :: kv.2])) ++ us ≠ [[]] := by
    intro h1
    cases psh : ps with
    | nil =>
      rw [psh] at h1
      simp only [List.flatMap_nil, List.nil_append] at h1
      exact hdeg ⟨psh, h1⟩
    | cons kv ps2 =>
      rw [psh] at h1
      simp only [List.flatMap_cons, List.cons_append, List.cons.injEq]
        at h1
      have : ("param".toList : List Char) = ([] : List Char) := h1.1
      simp at this
  have hbne : buildEncodedString ps us ≠ [] :=
    joinSep_ne_nil _ hpartsne hpartsnn
  have hsplit : pySplit '/' (buildEncodedString ps us)
      = (ps.flatMap (fun kv => ["param".toList, kv.1 ++ '=' :: kv.2])) ++ us :=
    pySplit_joinSep _ hpartsne hfree
  have hunq : ps.map (fun kv => (kv.1, pyUnquote kv.2)) = ps := by
    have : ∀ kv ∈ ps, (fun kv => (kv.1, pyUnquote kv.2)) kv = id kv := by
      intro kv hkv
      have hv : pyUnquote kv.2 = kv.2 :=
        pyUnquote_no_percent kv.2 (fun c hc => (hvals kv hkv c hc).2)
      simp [hv]
    rw [List.map_congr_left this, List.map_id]
  have hdrop : ((ps.flatMap
      (fun kv => ["param".toList, kv.1 ++ '=' :: kv.2])) ++ us).drop
        (0 + 2 * ps.length) = us := by
    rw [Nat.zero_add, ← length_pairSegs ps, List.drop_left]
  unfold parseEncodedData
  rw [if_neg (by simpa using hbne)]
  simp only [hsplit]
  rw [parseEncodedLoop_pairs ps us 0 [] hknoeq,
    parseEncodedLoop_stuck us _ _ _ husp]
  simp only [foldl_strDictInsert ps [] (by simp) hnodup, List.nil_append,
    hunq, hdrop]


/-- C2 counterexample: the scan does not stop at the first non-`param`
token.  For `params = -Range: 0--` and the URL segments of
`https://h/param/Accept=z`, parsing the built string also records the
`param/Accept=z` pair embedded in the URL and returns an empty tail,
instead of the original `params` and URL segments. -/
theorem C2_counterexample :
    parseEncodedData (buildEncodedString
        [("Range".toList, "0-".toList)]
        ["https:".toList, [], "h".toList, "param".toList, "Accept=z".toList])
      ≠ ([("Range".toList, "0-".toList)],
         ["https:".toList, [], "h".toList, "param".toList,
          "Accept=z".toList]) ∧
    parseEncodedData (buildEncodedString
        [("Range".toList, "0-".toList)]
        ["https:".toList, [], "h".toList, "param".toList, "Accept=z".toList])
      = ([("Range".toList, "0-".toList), ("Accept".toList, "z".toList)],
         []) := by
  constructor
  · decide
  · decide

/-- C2 witness: the round-trip at `params = -Range: 0--` and the URL
segments of `https://h.example/a`. -/
theorem C2_parse_encoded_roundtrip_witness :
    (∀ kv ∈ [("Range".toList, "0-".toList)],
      ∃ h ∈ allowedHeaderNames, kv.1 = h.toList) ∧
    parseEncodedData (buildEncodedString [("Range".toList, "0-".toList)]
        ["https:".toList, [], "h.example".toList, "a".toList])
      = ([("Range".toList, "0-".toList)],
         ["https:".toList, [], "h.example".toList, "a".toList]) :=
  ⟨by decide,
    C2_parse_encoded_roundtrip [("Range".toList, "0-".toList)]
      ["https:".toList, [], "h.example".toList, "a".toList]
      (by decide) (by decide) (by decide) (by decide) (by decide)
      (by decide)⟩


theorem utf8Decode_one (n : Nat) (bs : List Nat) (h1 : n < 128) :
    utf8Decode (n :: bs) = (utf8Decode bs).map (fun cs => Char.ofNat n :: cs)
    := by
  match bs with
  | [] => simp [utf8Decode, h1]
  | [x1] => simp [utf8Decode, h1]
  | [x1, x2] => simp [utf8Decode, h1]
  | x1 :: x2 :: x3 :: r => simp [utf8Decode, h1]

theorem utf8Decode_two (n : Nat) (bs : List Nat) (h1 : 128 ≤ n)
    (h2 : n < 2048) :
    utf8Decode ((192 + n / 64) :: (128 + n % 64) :: bs)
      = (utf8Decode bs).map (fun cs => Char.ofNat n :: cs) := by
  have hb1 : ¬ (192 + n / 64 < 128) := by omega
  have hb2 : (194 ≤ 192 + n / 64 ∧ 192 + n / 64 ≤ 223) ∧
      (128 ≤ 128 + n % 64 ∧ 128 + n % 64 ≤ 191) :=
    ⟨⟨by omega, by omega⟩, by omega, by omega⟩
  have harg : n / 64 * 64 + n % 64 = n := by omega
  match bs with
  | [] => simp [utf8Decode, hb1, hb2, harg]
  | [x1] => simp [utf8Decode, hb1, hb2, harg]
  | x1 :: x2 :: r => simp [utf8Decode, hb1, hb2, harg]


theorem utf8Decode_three (n : Nat) (bs : List Nat) (h1 : 2048 ≤ n)
    (h2 : n < 65536) (hsur : ¬ (55296 ≤ n ∧ n ≤ 57343)) :
    utf8Decode ((224 + n / 4096) :: (128 + n / 64 % 64) :: (128 + n % 64)
        :: bs)
      = (utf8Decode bs).map (fun cs => Char.ofNat n :: cs) := by
  have hb1 : ¬ (224 + n / 4096 < 128) := by omega
  have hb2 : ¬ (194 ≤ 224 + n / 4096 ∧ 224 + n / 4096 ≤ 223) := by omega
  have hb3 : (224 ≤ 224 + n / 4096 ∧ 224 + n / 4096 ≤ 239) ∧
      (128 ≤ 128 + n / 64 % 64 ∧ 128 + n / 64 % 64 ≤ 191) ∧
      (128 ≤ 128 + n % 64 ∧ 128 + n % 64 ≤ 191) :=
    ⟨⟨by omega, by omega⟩, ⟨by omega, by omega⟩, by omega, by omega⟩
  have hveq : n / 4096 * 4096 + (n / 64 % 64 * 64 + n % 64) = n := by
    omega
  have hveq2 : n / 4096 * 4096 + n / 64 % 64 * 64 + n % 64 = n := by
    omega
  match bs with
  | [] => simp [utf8Decode, hb1, hb2, hb3, hveq, hveq2, h1, hsur]
  | x1 :: r => simp [utf8Decode, hb1, hb2, hb3, hveq, hveq2, h1, hsur]

theorem utf8Decode_four (n : Nat) (bs : List Nat) (h1 : 65536 ≤ n)
    (h2 : n < 1114112) :
    utf8Decode ((240 + n / 262144) :: (128 + n / 4096 % 64) ::
        (128 + n / 64 % 64) :: (128 + n % 64) :: bs)
      = (utf8Decode bs).map (fun cs => Char.ofNat n :: cs) := by
  have hb1 : ¬ (240 + n / 262144 < 128) := by omega
  have hb2 : ¬ (194 ≤ 240 + n / 262144 ∧ 240 + n / 262144 ≤ 223) := by
    omega
  have hb3 : ¬ (224 ≤ 240 + n / 262144 ∧ 240 + n / 262144 ≤ 239) := by
    omega
  have hb4 : (240 ≤ 240 + n / 262144 ∧ 240 + n / 262144 ≤ 244) ∧
      (128 ≤ 128 + n / 4096 % 64 ∧ 128 + n / 4096 % 64 ≤ 191) ∧
      (128 ≤ 128 + n / 64 % 64 ∧ 128 + n / 64 % 64 ≤ 191) ∧
      (128 ≤ 128 + n % 64 ∧ 128 + n % 64 ≤ 191) :=
    ⟨⟨by omega, by omega⟩, ⟨by omega, by omega⟩, ⟨by omega, by omega⟩,
      by omega, by omega⟩
  have hveq : n / 262144 * 262144 + (n / 4096 % 64 * 4096 +
      (n / 64 % 64 * 64 + n % 64)) = n := by omega
  have hveq2 : n / 262144 * 262144 + n / 4096 % 64 * 4096 +
      n / 64 % 64 * 64 + n % 64 = n := by omega
  simp [utf8Decode, hb1, hb2, hb3, hb4, hveq, hveq2, h1, h2]


theorem utf8Decode_encodeChar (c : Char) (bs : List Nat) :
    utf8Decode (utf8EncodeChar c ++ bs)
      = (utf8Decode bs).map (fun cs => c :: cs) := by
  have hv : Nat.isValidChar c.toNat := c.valid
  have hlt : c.toNat < 1114112 := by
    rcases hv with h | h <;> omega
  by_cases h1 : c.toNat < 128
  · have he : utf8EncodeChar c = [c.toNat] := by
      simp [utf8EncodeChar, h1]
    rw [he, List.singleton_append, utf8Decode_one _ _ h1, Char.ofNat_toNat]
  · by_cases h2 : c.toNat < 2048
    · have he : utf8EncodeChar c
          = [192 + c.toNat / 64, 128 + c.toNat % 64] := by
        simp [utf8EncodeChar, h1, h2]
      rw [he]
      simp only [List.cons_append, List.nil_append]
      rw [utf8Decode_two _ _ (by omega) h2, Char.ofNat_toNat]
    · by_cases h3 : c.toNat < 65536
      · have hsur : ¬ (55296 ≤ c.toNat ∧ c.toNat ≤ 57343) := by
          rcases hv with h | h <;> omega
        have he : utf8EncodeChar c = [224 + c.toNat / 4096,
            128 + c.toNat / 64 % 64, 128 + c.toNat % 64] := by
          simp [utf8EncodeChar, h1, h2, h3]
        rw [he]
        simp only [List.cons_append, List.nil_append]
        rw [utf8Decode_three _ _ (by omega) h3 hsur, Char.ofNat_toNat]
      · have he : utf8EncodeChar c = [240 + c.toNat / 262144,
            128 + c.toNat / 4096 % 64, 128 + c.toNat / 64 % 64,
            128 + c.toNat % 64] := by
          simp [utf8EncodeChar, h1, h2, h3]
        rw [he]
        simp only [List.cons_append, List.nil_append]
        rw [utf8Decode_four _ _ (by omega) hlt, Char.ofNat_toNat]

theorem utf8Decode_utf8Encode (s : PyStr) :
    utf8Decode (utf8Encode s) = some s := by
  induction s with
  | nil => rfl
  | cons c rest ih =>
    show utf8Decode ((c :: rest).flatMap utf8EncodeChar) = some (c :: rest)
    rw [List.flatMap_cons]
    rw [show rest.flatMap utf8EncodeChar = utf8Encode rest from rfl]
    rw [utf8Decode_encodeChar, ih]
    rfl

theorem utf8EncodeChar_lt256 (c : Char) : ∀ b ∈ utf8EncodeChar c, b < 256
    := by
  have hv : Nat.isValidChar c.toNat := c.valid
  have hlt : c.toNat < 1114112 := by
    rcases hv with h | h <;> omega
  intro b hb
  by_cases h1 : c.toNat < 128 <;> by_cases h2 : c.toNat < 2048 <;>
    by_cases h3 : c.toNat < 65536 <;>
    simp [utf8EncodeChar, h1, h2, h3] at hb <;> omega

theorem utf8Encode_lt256 (s : PyStr) : ∀ b ∈ utf8Encode s, b < 256 := by
  intro b hb
  obtain ⟨c, _, hbc⟩ := List.mem_flatMap.mp hb
  exact utf8EncodeChar_lt256 c b hbc


theorem charSextet_sextetChar : ∀ v : Fin 64,
    charSextet (sextetChar v.val) = some v.val := by decide

theorem sextetChar_ne_pad : ∀ v : Fin 64, sextetChar v.val ≠ '=' := by
  decide

theorem sextetChar_safe_back : ∀ v : Fin 64,
    (fun c => if c = '-' then '+' else if c = '_' then '/' else c)
      ((fun c => if c = '+' then '-' else if c = '/' then '_' else c)
        (sextetChar v.val)) = sextetChar v.val := by decide

theorem sextetChar_safe_ne_percent : ∀ v : Fin 64,
    (fun c => if c = '+' then '-' else if c = '/' then '_' else c)
      (sextetChar v.val) ≠ '%' := by decide

theorem sextetChar_safe_ne_pad : ∀ v : Fin 64,
    (fun c => if c = '+' then '-' else if c = '/' then '_' else c)
      (sextetChar v.val) ≠ '=' := by decide


theorem b64Encode_structure (bs : List Nat) (hb : ∀ b ∈ bs, b < 256) :
    ∃ core p, b64Encode bs = core ++ List.replicate p '=' ∧ p ≤ 2 ∧
      (∀ c ∈ core, ∃ v : Fin 64, c = sextetChar v.val) ∧
      (core.length + p) % 4 = 0 := by
  induction bs using b64Encode.induct with
  | case1 =>
    exact ⟨[], 0, rfl, by omega, by simp, by simp⟩
  | case2 b1 =>
    have h1 : b1 < 256 := hb b1 (by simp)
    refine ⟨[sextetChar (b1 / 4), sextetChar (b1 % 4 * 16)], 2, ?_,
      by omega, ?_, by simp⟩
    · simp [b64Encode, List.replicate]
    · intro c hc
      rcases List.mem_cons.mp hc with rfl | hc
      · exact ⟨⟨b1 / 4, by omega⟩, rfl⟩
      · rcases List.mem_singleton.mp hc with rfl
        exact ⟨⟨b1 % 4 * 16, by omega⟩, rfl⟩
  | case3 b1 b2 =>
    have h1 : b1 < 256 := hb b1 (by simp)
    have h2 : b2 < 256 := hb b2 (by simp)
    refine ⟨[sextetChar (b1 / 4), sextetChar (b1 % 4 * 16 + b2 / 16),
      sextetChar (b2 % 16 * 4)], 1, ?_, by omega, ?_, by simp⟩
    · simp [b64Encode, List.replicate]
    · intro c hc
      rcases List.mem_cons.mp hc with rfl | hc
      · exact ⟨⟨b1 / 4, by omega⟩, rfl⟩
      rcases List.mem_cons.mp hc with rfl | hc
      · exact ⟨⟨b1 % 4 * 16 + b2 / 16, by omega⟩, rfl⟩
      rcases List.mem_singleton.mp hc with rfl
      exact ⟨⟨b2 % 16 * 4, by omega⟩, rfl⟩
  | case4 b1 b2 b3 rest ih =>
    have h1 : b1 < 256 := hb b1 (by simp)
    have h2 : b2 < 256 := hb b2 (by simp)
    have h3 : b3 < 256 := hb b3 (by simp)
    obtain ⟨core, p, heq, hp, hmem, hlen⟩ :=
      ih (fun b hbm => hb b (by simp [hbm]))
    refine ⟨sextetChar (b1 / 4) :: sextetChar (b1 % 4 * 16 + b2 / 16) ::
      sextetChar (b2 % 16 * 4 + b3 / 64) :: sextetChar (b3 % 64) :: core,
      p, ?_, hp, ?_, ?_⟩
    · simp [b64Encode, heq]
    · intro c hc
      rcases List.mem_cons.mp hc with rfl | hc
      · exact ⟨⟨b1 / 4, by omega⟩, rfl⟩
      rcases List.mem_cons.mp hc with rfl | hc
      · exact ⟨⟨b1 % 4 * 16 + b2 / 16, by omega⟩, rfl⟩
      rcases List.mem_cons.mp hc with rfl | hc
      · exact ⟨⟨b2 % 16 * 4 + b3 / 64, by omega⟩, rfl⟩
      rcases List.mem_cons.mp hc with rfl | hc
      · exact ⟨⟨b3 % 64, by omega⟩, rfl⟩
      exact hmem c hc
    · simp only [List.length_cons]
      omega


theorem b64DecodeGroups_encode (bs : List Nat) (hb : ∀ b ∈ bs, b < 256) :
    b64DecodeGroups (b64Encode bs) = some bs := by
  induction bs using b64Encode.induct with
  | case1 => rfl
  | case2 b1 =>
    have h1 : b1 < 256 := hb b1 (by simp)
    have hs1 := charSextet_sextetChar ⟨b1 / 4, by omega⟩
    have hs2 := charSextet_sextetChar ⟨b1 % 4 * 16, by omega⟩
    have hd1 : b1 / 4 * 4 + b1 % 4 * 16 / 16 = b1 := by omega
    simp [b64Encode, b64DecodeGroups, hs1, hs2, hd1]
    omega
  | case3 b1 b2 =>
    have h1 : b1 < 256 := hb b1 (by simp)
    have h2 : b2 < 256 := hb b2 (by simp)
    have hs1 := charSextet_sextetChar ⟨b1 / 4, by omega⟩
    have hs2 := charSextet_sextetChar ⟨b1 % 4 * 16 + b2 / 16, by omega⟩
    have hs3 := charSextet_sextetChar ⟨b2 % 16 * 4, by omega⟩
    have hne3 := sextetChar_ne_pad ⟨b2 % 16 * 4, by omega⟩
    have hd1 : b1 / 4 * 4 + (b1 % 4 * 16 + b2 / 16) / 16 = b1 := by omega
    have hd2 : (b1 % 4 * 16 + b2 / 16) % 16 * 16 + b2 % 16 * 4 / 4 = b2
        := by omega
    simp [b64Encode, b64DecodeGroups, hs1, hs2, hs3, hne3, hd1, hd2]
    omega
  | case4 b1 b2 b3 rest ih =>
    have h1 : b1 < 256 := hb b1 (by simp)
    have h2 : b2 < 256 := hb b2 (by simp)
    have h3 : b3 < 256 := hb b3 (by simp)
    have hrec := ih (fun b hbm => hb b (by simp [hbm]))
    have hs1 := charSextet_sextetChar ⟨b1 / 4, by omega⟩
    have hs2 := charSextet_sextetChar ⟨b1 % 4 * 16 + b2 / 16, by omega⟩
    have hs3 := charSextet_sextetChar ⟨b2 % 16 * 4 + b3 / 64, by omega⟩
    have hs4 := charSextet_sextetChar ⟨b3 % 64, by omega⟩
    have hne3 := sextetChar_ne_pad ⟨b2 % 16 * 4 + b3 / 64, by omega⟩
    have hne4 := sextetChar_ne_pad ⟨b3 % 64, by omega⟩
    have hd1 : b1 / 4 * 4 + (b1 % 4 * 16 + b2 / 16) / 16 = b1 := by omega
    have hd2 : (b1 % 4 * 16 + b2 / 16) % 16 * 16 +
        (b2 % 16 * 4 + b3 / 64) / 4 = b2 := by omega
    have hd3 : (b2 % 16 * 4 + b3 / 64) % 4 * 64 + b3 % 64 = b3 := by
      omega
    simp [b64Encode, b64DecodeGroups, hs1, hs2, hs3, hs4, hne3, hne4,
      hd1, hd2, hd3, hrec]


theorem dropWhile_pad_replicate (p : Nat) (l : PyStr) :
    List.dropWhile (fun c => c == '=') (List.replicate p '=' ++ l)
      = List.dropWhile (fun c => c == '=') l := by
  induction p with
  | zero => simp
  | succ q ih => simp [List.replicate_succ, List.dropWhile_cons, ih]

theorem dropWhile_pad_self (l : PyStr) (h : '=' ∉ l) :
    List.dropWhile (fun c => c == '=') l = l := by
  cases l with
  | nil => rfl
  | cons c rest =>
    have hc : ¬ (c == '=') = true := by
      simp only [List.mem_cons, not_or] at h
      simp only [beq_iff_eq]
      exact fun he => h.1 he.symm
    simp [List.dropWhile_cons, hc]

theorem dropTrailingEq_append_pad (core : PyStr) (p : Nat)
    (hne : '=' ∉ core) :
    dropTrailingEq (core ++ List.replicate p '=') = core := by
  unfold dropTrailingEq
  rw [List.reverse_append, List.reverse_replicate, dropWhile_pad_replicate,
    dropWhile_pad_self _ (by simpa using hne), List.reverse_reverse]

theorem pyB64Decode_b64Encode (bs : List Nat) (hb : ∀ b ∈ bs, b < 256) :
    pyB64Decode (b64Encode bs) = some bs := by
  have hfil : (b64Encode bs).filter
      (fun c => (charSextet c).isSome || c == '=') = b64Encode bs := by
    rw [List.filter_eq_self]
    intro c hc
    obtain ⟨core, p, heq, hp, hmem, hlen⟩ := b64Encode_structure bs hb
    rw [heq] at hc
    rcases List.mem_append.mp hc with hc | hc
    · obtain ⟨v, rfl⟩ := hmem c hc
      simp [charSextet_sextetChar v]
    · have : c = '=' := List.eq_of_mem_replicate hc
      simp [this]
  unfold pyB64Decode
  rw [hfil]
  exact b64DecodeGroups_encode bs hb

/-- C7: the base64-URL encode/decode pair of src/utils/url_utils.py is a
round trip on every string. -/
theorem C7_base64_url_roundtrip (s : PyStr) :
    decodeBase64Url (encodeBase64Url s) = some s := by
  obtain ⟨core, p, heq, hp, hmem, hlen⟩ :=
    b64Encode_structure (utf8Encode s) (utf8Encode_lt256 s)
  have hsafe_pad : (core ++ List.replicate p '=').map
      (fun c => if c = '+' then '-' else if c = '/' then '_' else c)
      = core.map (fun c => if c = '+' then '-' else if c = '/' then '_'
        else c) ++ List.replicate p '=' := by
    rw [List.map_append, List.map_replicate]
    simp
  have hnopad : '=' ∉ core.map
      (fun c => if c = '+' then '-' else if c = '/' then '_' else c) := by
    intro hm
    obtain ⟨c0, hc0, hceq⟩ := List.mem_map.mp hm
    obtain ⟨v, rfl⟩ := hmem c0 hc0
    exact sextetChar_safe_ne_pad v hceq
  have hencode : encodeBase64Url s = core.map
      (fun c => if c = '+' then '-' else if c = '/' then '_' else c) := by
    simp only [encodeBase64Url]
    rw [heq, hsafe_pad, dropTrailingEq_append_pad _ _ hnopad]
  have hunq : pyUnquote (core.map
      (fun c => if c = '+' then '-' else if c = '/' then '_' else c))
      = core.map (fun c => if c = '+' then '-' else if c = '/' then '_'
        else c) := by
    apply pyUnquote_no_percent
    intro c hc
    obtain ⟨c0, hc0, hceq⟩ := List.mem_map.mp hc
    obtain ⟨v, rfl⟩ := hmem c0 hc0
    rw [← hceq]
    exact sextetChar_safe_ne_percent v
  have hback : (core.map
      (fun c => if c = '+' then '-' else if c = '/' then '_' else c)).map
      (fun c => if c = '-' then '+' else if c = '_' then '/' else c)
      = core := by
    rw [List.map_map]
    have hpt : ∀ c ∈ core,
        ((fun c => if c = '-' then '+' else if c = '_' then '/' else c) ∘
         (fun c => if c = '+' then '-' else if c = '/' then '_' else c)) c
          = id c := by
      intro c hc
      obtain ⟨v, rfl⟩ := hmem c hc
      exact sextetChar_safe_back v
    rw [List.map_congr_left hpt, List.map_id]
  have hpad : (if core.length % 4 ≠ 0 then
      core ++ List.replicate (4 - core.length % 4) '=' else core)
      = core ++ List.replicate p '=' := by
    by_cases hp0 : p = 0
    · subst hp0
      have h0 : core.length % 4 = 0 := by omega
      simp [h0]
    · have h40 : core.length % 4 = 4 - p := by omega
      have hne0 : ¬ (core.length % 4 = 0) := by omega
      rw [if_pos hne0, h40, show 4 - (4 - p) = p by omega]
  simp only [decodeBase64Url, hencode, hunq, hback, hpad, ← heq,
    pyB64Decode_b64Encode (utf8Encode s) (utf8Encode_lt256 s),
    utf8Decode_utf8Encode]

end LampaProxy
